import Mathlib

/-!
# Verification of the `audio-samples` parameter-sampling and rendering pipeline

Shallow embedding of the repository's core (parameter sampling, octave/chord
frequency enumeration, oscillator and effect sampling, normalization,
clipping detection, spectral low-pass) together with theorems checking the
natural-language specification against the code.

Modelling conventions:
* `f32` values are embedded as exact rationals (`ℚ`); the octave arithmetic
  (divisions and multiplications by powers of two, comparisons) is exact in
  binary floating point at the magnitudes involved, so the rational model is
  faithful there.  The transcendental `exp`/`ln` mapping of `LogUniform` is
  modelled over `ℝ` where the specification states the exact formula.
* External collaborators (the `rand`/`rand_pcg` generators, `std`'s
  `DefaultHasher`, the `flexblock_synth` module runtime, `rustfft`) are
  abstracted as function parameters: the code only relies on them being
  deterministic functions, which the abstraction preserves.
* The two unbounded loops in the source (the frequency-bearing rejection
  loop and the octave-adding loop) are embedded with an explicit fuel
  argument and return `Option`; `none` corresponds to a run that has not yet
  terminated (or to a source `panic!`/failed `assert!`).
-/

namespace AudioSamples

/-- State of a seeded pseudo-random generator (`rand_pcg::Pcg64Mcg`), modelled
abstractly as a seed together with a draw counter; the values drawn are
supplied by the `Externals` record below.  `Pcg64Mcg` is an external crate:
the code relies only on it being a deterministic stream determined by the
seed. -/
structure Rng where
  seed : ℕ
  pos : ℕ
  deriving DecidableEq

/-- `Pcg64Mcg::seed_from_u64`: a fresh generator from a 64-bit seed. -/
def seedFromU64 (seed : ℕ) : Rng := ⟨seed, 0⟩

/-- Abstractions of the external collaborators used by the sampling pipeline:
the std hasher, the pseudo-random streams, and the crate-level
frequency/map conversions (the latter are code of this repository missing
from `src/`; the claims settled here do not depend on their concrete form,
only on their being pure functions, so they are kept abstract). -/
structure Externals where
  /-- `audio_samples::hash` built on `std::collections::hash_map::DefaultHasher`
  (SipHash-1-3, external to the repository). -/
  hash : ℕ → ℕ
  /-- raw 64-bit draws of the seeded generator: seed → draw index → value. -/
  rngNat : ℕ → ℕ → ℕ
  /-- outcomes of `Rng::gen_bool` draws: seed → draw index → outcome. -/
  rngBool : ℕ → ℕ → Bool
  /-- outcomes of `Rng::gen_range` draws over floating-point ranges. -/
  rngRat : ℕ → ℕ → ℚ
  /-- Modelled from the spec: `crate::frequency_to_map` (missing from `src/`),
  the perceptual-coordinate map of a frequency. -/
  frequencyToMap : ℚ → ℚ
  /-- Modelled from the spec: `crate::map_to_frequency` (missing from `src/`),
  inverse direction of the perceptual map. -/
  mapToFrequency : ℚ → ℚ
  /-- the `f32` evaluation of `LogUniform::unmap` (transcendental `exp`/`ln`
  float arithmetic, kept abstract; the exact real formula is verified
  separately). -/
  logUniformValue : ℚ × ℚ → ℚ → ℚ

/-- One raw draw (`rng.next_u64()` / `rng.sample(Standard)` for integers). -/
def Rng.nextNat (E : Externals) (r : Rng) : ℕ × Rng :=
  (E.rngNat r.seed r.pos, ⟨r.seed, r.pos + 1⟩)

/-- `rng.gen_bool(p)`: a Bernoulli draw.  The outcome stream is abstract, so
every theorem below holds for every possible sequence of outcomes. -/
def Rng.genBool (E : Externals) (_p : ℚ) (r : Rng) : Bool × Rng :=
  (E.rngBool r.seed r.pos, ⟨r.seed, r.pos + 1⟩)

/-- `rng.gen_range(0..n)`: a draw uniform in `[0, n)` (for `n > 0`). -/
def Rng.genRange (E : Externals) (n : ℕ) (r : Rng) : ℕ × Rng :=
  (E.rngNat r.seed r.pos % n, ⟨r.seed, r.pos + 1⟩)

/-- `rng.gen_range(lo..=hi)` over floats: a draw inside `[lo, hi]`; the raw
abstract value is clamped into the range, which is the only contract the
code relies on. -/
def Rng.genRatIncl (E : Externals) (lo hi : ℚ) (r : Rng) : ℚ × Rng :=
  (max lo (min hi (E.rngRat r.seed r.pos)), ⟨r.seed, r.pos + 1⟩)

/-! ## `src/log_uniform.rs` -/

/-- `LogUniform` (src/log_uniform.rs): a log-scale distribution over the
domain `[min, max]`.  Field values are the exact rationals denoted by the
stored `f32`s. -/
structure LogUniform where
  min : ℚ
  max : ℚ
  deriving DecidableEq

/-- `LogUniform::from_tuple`: validates `range.0 ≥ 0` and `range.1 ≥ range.0`
(after clamping a zero minimum to `1e-6`); a failed `assert!` is `none`. -/
def LogUniform.fromTuple (range : ℚ × ℚ) : Option LogUniform :=
  if 0 ≤ range.1 then
    let lo := if range.1 = 0 then 1 / 1000000 else range.1
    if lo ≤ range.2 then some ⟨lo, range.2⟩ else none
  else none

/-- `LogUniform::map_value` over `ℝ` (the exact semantics of the `f32`
`ln` arithmetic); the source `assert_ne!(min, max)` makes the degenerate
domain a panic, i.e. `none`. -/
noncomputable def LogUniform.mapValue (d : LogUniform) (frequency : ℝ) : Option ℝ :=
  if (d.min : ℝ) = (d.max : ℝ) then none
  else some ((Real.log frequency - Real.log d.min) /
    (Real.log d.max - Real.log d.min) * 2 - 1)

/-- `LogUniform::unmap` over `ℝ`: maps a coordinate back onto the domain;
a degenerate domain maps every coordinate to the single value. -/
noncomputable def LogUniform.unmap (d : LogUniform) (map : ℝ) : ℝ :=
  if (d.min : ℝ) = (d.max : ℝ) then d.min
  else Real.exp ((Real.log d.max - Real.log d.min) * (map + 1) / 2 + Real.log d.min)

/-- `LogUniform::sample_with_map`: draws `map` uniformly in `[-1, 1]` and
returns it with the mapped value (the `f32` transcendental evaluation is the
abstract `E.logUniformValue`). -/
def LogUniform.sampleWithMap (E : Externals) (d : LogUniform) (r : Rng) : (ℚ × ℚ) × Rng :=
  let (map, r1) := r.genRatIncl E (-1) 1
  ((map, E.logUniformValue (d.min, d.max) map), r1)

/-- `<LogUniform as Distribution<f32>>::sample`: the value of `sample_with_map`. -/
def LogUniform.sample (E : Externals) (d : LogUniform) (r : Rng) : ℚ × Rng :=
  let ((_, v), r1) := d.sampleWithMap E r
  (v, r1)

/-- Modelled from the spec: `crate::Uniform` (missing from `src/`), the
linear analogue of `LogUniform`: a bijective map between a perceptual
coordinate in `[-1, 1]` and a value on a linear scale. -/
structure Uniform where
  min : ℚ
  max : ℚ
  deriving DecidableEq

/-- Modelled from the spec: `Uniform::new`. -/
def Uniform.new (lo hi : ℚ) : Uniform := ⟨lo, hi⟩

/-- Modelled from the spec: `Uniform` sampling draws a coordinate uniformly
and returns the linearly mapped value inside the domain. -/
def Uniform.sample (E : Externals) (u : Uniform) (r : Rng) : ℚ × Rng :=
  let (raw, r1) := r.genRatIncl E u.min u.max
  (raw, r1)

/-! ## `OctaveParameters` (src/parameters/data.rs) -/

/-- `OctaveParameters` (src/parameters/data.rs): octave-spread policy. -/
structure OctaveParameters where
  addRootOctaveProbability : ℚ
  addOtherOctaveProbability : ℚ
  minFrequency : ℚ
  maxFrequency : ℚ
  deriving DecidableEq

/-- `OctaveParameters::new`: validates the probabilities and
`max_frequency ≥ 2 * min_frequency`; a failed `assert!` is `none`. -/
def OctaveParameters.new (addRoot addOther minFrequency maxFrequency : ℚ) :
    Option OctaveParameters :=
  if 0 ≤ addRoot ∧ addRoot ≤ 1 ∧ 0 ≤ addOther ∧ addOther ≤ 1 ∧
      0 < minFrequency ∧ minFrequency * 2 ≤ maxFrequency then
    some ⟨addRoot, addOther, minFrequency, maxFrequency⟩
  else none

/-- `Iterator::find` over an ascending integer range starting at `start` with
`n` elements: the first index satisfying `q`, as in `(-10i32..40).find(...)`. -/
def searchFrom (q : ℤ → Bool) : ℕ → ℤ → Option ℤ
  | 0, _ => none
  | n + 1, i => if q i then some i else searchFrom q n (i + 1)

/-- The `given_octave` computation of `OctaveParameters::generate_frequencies`:
first `i ∈ [-10, 40)` with `frequency / 2^i < min_frequency`, minus one
(`none` models the `.unwrap()` panic when no such index exists). -/
def OctaveParameters.givenOctave (p : OctaveParameters) (frequency : ℚ) : Option ℤ :=
  (searchFrom (fun i => decide (frequency / 2 ^ i < p.minFrequency)) 50 (-10)).map
    (fun i => i - 1)

/-- The `num_octaves` computation: first `i ∈ [1, 40)` with
`lowest_octave * 2^i > max_frequency` (`none` models the `.expect` panic). -/
def OctaveParameters.numOctaves (p : OctaveParameters) (lowestOctave : ℚ) : Option ℤ :=
  searchFrom (fun i => decide (p.maxFrequency < lowestOctave * 2 ^ i)) 39 1

/-- The `while rng.gen_bool(prob)` loop of `generate_frequencies`: repeatedly
draws an octave in `[0, num)` and appends it if not already present.  `fuel`
bounds the modelled iterations; `none` is a run that has not terminated
within the fuel. -/
def addOctaves (E : Externals) (prob : ℚ) (num : ℕ) :
    ℕ → List ℤ → Rng → Option (List ℤ × Rng)
  | 0, _, _ => none
  | fuel + 1, acc, r =>
    let (b, r1) := r.genBool E prob
    if b then
      let (o, r2) := r1.genRange E num
      let acc1 := if (o : ℤ) ∈ acc then acc else acc ++ [(o : ℤ)]
      addOctaves E prob num fuel acc1 r2
    else some (acc, r1)

/-- The octave-index list built by `OctaveParameters::generate_frequencies`:
returns `(given_octave, num_octaves, octave list, rng)`. -/
def OctaveParameters.generateOctaves (E : Externals) (fuel : ℕ) (p : OctaveParameters)
    (frequency : ℚ) (root : Bool) (r : Rng) : Option (ℤ × ℕ × List ℤ × Rng) :=
  match p.givenOctave frequency with
  | none => none
  | some g =>
    let lowestOctave := frequency / 2 ^ g
    match p.numOctaves lowestOctave with
    | none => none
    | some numZ =>
      let num := numZ.toNat
      let (first, r1) : ℤ × Rng :=
        if root then (g, r)
        else
          let (o, r2) := r.genRange E num
          ((o : ℤ), r2)
      let prob := if root then p.addRootOctaveProbability else p.addOtherOctaveProbability
      match addOctaves E prob num fuel [first] r1 with
      | none => none
      | some (octaves, r2) => some (g, num, octaves, r2)

/-- `OctaveParameters::generate_frequencies` (src/parameters/data.rs): maps
the accumulated octave indices through `lowest_octave * 2^octave`. -/
def OctaveParameters.generateFrequencies (E : Externals) (fuel : ℕ) (p : OctaveParameters)
    (frequency : ℚ) (root : Bool) (r : Rng) : Option (List ℚ × Rng) :=
  (p.generateOctaves E fuel frequency root r).map
    (fun x => (x.2.2.1.map (fun o => frequency / 2 ^ x.1 * 2 ^ o), x.2.2.2))

/-! ## `src/chord.rs` and the chord table -/

/-- `ChordType` (src/chord.rs): frequency multipliers relative to a root. -/
structure ChordType where
  offsets : List ℚ
  deriving DecidableEq

/-- `ChordType::num_notes`. -/
def ChordType.numNotes (c : ChordType) : ℕ := c.offsets.length + 1

/-- `ChordType::frequencies`: the root followed by `root * offset` in table
order. -/
def ChordType.frequencies (c : ChordType) (baseFrequency : ℚ) : List ℚ :=
  baseFrequency :: c.offsets.map (fun offset => baseFrequency * offset)

/-- Modelled from the spec: `crate::CHORD_TYPES` (missing from `src/`), the
fixed chord table; the spec documents entry 0, "Single Note" (no extra
multipliers), and a major chord (root, 5/4, 3/2). -/
def CHORD_TYPES : List (String × ChordType) :=
  [("Single Note", ⟨[]⟩), ("Major", ⟨[5 / 4, 3 / 2]⟩)]

/-! ## `src/parameters/oscillators.rs` -/

/-- `OscillatorTypeDistribution` (src/parameters/oscillators.rs). -/
inductive OscillatorTypeDistribution where
  | sine : OscillatorTypeDistribution
  | saw : OscillatorTypeDistribution
  | pulse (pulseWidthDistribution : Uniform) : OscillatorTypeDistribution
  | triangle : OscillatorTypeDistribution
  | noise : OscillatorTypeDistribution
  deriving DecidableEq

/-- `OscillatorTypeDistribution::has_frequency`: every kind except noise. -/
def OscillatorTypeDistribution.hasFrequency : OscillatorTypeDistribution → Bool
  | .sine => true
  | .saw => true
  | .pulse _ => true
  | .triangle => true
  | .noise => false

/-- `OscillatorType` (src/parameters/oscillators.rs): a concrete sampled
oscillator kind; noise carries the seed for its generator. -/
inductive OscillatorType where
  | sine : OscillatorType
  | saw : OscillatorType
  | pulse (width : ℚ) : OscillatorType
  | triangle : OscillatorType
  | noise (seed : ℕ) : OscillatorType
  deriving DecidableEq

/-- `<OscillatorTypeDistribution as Distribution<OscillatorType>>::sample`:
pulse draws a duty cycle, noise draws a fresh 64-bit seed. -/
def OscillatorTypeDistribution.sample (E : Externals) :
    OscillatorTypeDistribution → Rng → OscillatorType × Rng
  | .sine, r => (.sine, r)
  | .saw, r => (.saw, r)
  | .pulse u, r =>
    let (w, r1) := u.sample E r
    (.pulse w, r1)
  | .triangle, r => (.triangle, r)
  | .noise, r =>
    let (s, r1) := r.nextNat E
    (.noise s, r1)

/-- `OscillatorDistribution` (src/parameters/oscillators.rs). -/
structure OscillatorDistribution where
  oscillatorTypeDistribution : OscillatorTypeDistribution
  probability : ℚ
  amplitudeDistribution : LogUniform
  deriving DecidableEq

/-- `OscillatorDistribution::new`: validates the amplitude range
(non-negative, non-empty, bounded by 1) and the inclusion probability;
failed `assert!`s (including inside `LogUniform::from_tuple`) are `none`. -/
def OscillatorDistribution.new (t : OscillatorTypeDistribution) (probability : ℚ)
    (amplitudeRange : ℚ × ℚ) : Option OscillatorDistribution :=
  if 0 ≤ amplitudeRange.1 ∧ amplitudeRange.1 ≤ amplitudeRange.2 ∧
      amplitudeRange.2 ≤ 1 ∧ 0 < probability ∧ probability ≤ 1 then
    (LogUniform.fromTuple amplitudeRange).map (fun d => ⟨t, probability, d⟩)
  else none

/-- `OscillatorDistribution::maximum_amplitude`. -/
def OscillatorDistribution.maximumAmplitude (d : OscillatorDistribution) : ℚ :=
  d.amplitudeDistribution.max

/-- `OscillatorDistribution::has_frequency`. -/
def OscillatorDistribution.hasFrequency (d : OscillatorDistribution) : Bool :=
  d.oscillatorTypeDistribution.hasFrequency

/-- `OscillatorParameters` (src/parameters/oscillators.rs): a sampled
oscillator. -/
structure OscillatorParameters where
  oscillatorType : OscillatorType
  amplitude : ℚ
  deriving DecidableEq

/-- `OscillatorParameters::has_frequency`: positive amplitude and a
non-noise kind. -/
def OscillatorParameters.hasFrequency (o : OscillatorParameters) : Bool :=
  decide (0 < o.amplitude) &&
    match o.oscillatorType with
    | .sine => true
    | .saw => true
    | .pulse _ => true
    | .triangle => true
    | .noise _ => false

/-- `<OscillatorDistribution as Distribution<Option<OscillatorParameters>>>::sample`:
a Bernoulli inclusion draw, then (if included) kind and amplitude draws. -/
def OscillatorDistribution.sample (E : Externals) (d : OscillatorDistribution) (r : Rng) :
    Option OscillatorParameters × Rng :=
  let (included, r1) := r.genBool E d.probability
  if included then
    let (t, r2) := d.oscillatorTypeDistribution.sample E r1
    let (amp, r3) := d.amplitudeDistribution.sample E r2
    (some ⟨t, amp⟩, r3)
  else (none, r1)

/-! ## `src/parameters/effects.rs` -/

/-- `EffectTypeDistribution` (src/parameters/effects.rs). -/
inductive EffectTypeDistribution where
  | distortion (powerDistribution : LogUniform) : EffectTypeDistribution
  | normalize : EffectTypeDistribution
  deriving DecidableEq

/-- `EffectParameters` (src/parameters/effects.rs). -/
inductive EffectParameters where
  | distortion (power : ℚ) : EffectParameters
  | normalize : EffectParameters
  deriving DecidableEq

/-- `<EffectTypeDistribution as Distribution<EffectParameters>>::sample`. -/
def EffectTypeDistribution.sample (E : Externals) :
    EffectTypeDistribution → Rng → EffectParameters × Rng
  | .distortion d, r =>
    let (p, r1) := d.sample E r
    (.distortion p, r1)
  | .normalize, r => (.normalize, r)

/-- `EffectDistribution` (src/parameters/effects.rs). -/
structure EffectDistribution where
  effectTypeDistribution : EffectTypeDistribution
  probability : ℚ
  deriving DecidableEq

/-- `EffectDistribution::new`: validates the probability. -/
def EffectDistribution.new (t : EffectTypeDistribution) (probability : ℚ) :
    Option EffectDistribution :=
  if 0 < probability ∧ probability ≤ 1 then some ⟨t, probability⟩ else none

/-- `<EffectDistribution as Distribution<Option<EffectParameters>>>::sample`. -/
def EffectDistribution.sample (E : Externals) (d : EffectDistribution) (r : Rng) :
    Option EffectParameters × Rng :=
  let (included, r1) := r.genBool E d.probability
  if included then
    let (e, r2) := d.effectTypeDistribution.sample E r1
    (some e, r2)
  else (none, r1)

/-- The maximum of the absolute sample values of a buffer, as computed by
`buffer.iter().map(|s| s.abs()).max_by_key(...)` in
`EffectParameters::apply_to_buffer` (`none` on an empty buffer, where the
source `.expect` panics). -/
def maxAbs : List ℚ → Option ℚ
  | [] => none
  | x :: xs => some (xs.foldl (fun a b => max a |b|) |x|)

/-- The element of maximal absolute value, as computed by
`buffer.iter().max_by_key(|&&x| FloatOrd(x.abs()))` (ties resolved towards
the later element, as in `Iterator::max_by_key`). -/
def maxAbsElem : List ℚ → Option ℚ
  | [] => none
  | x :: xs => some (xs.foldl (fun a b => if |a| ≤ |b| then b else a) x)

/-- The `Normalize` arm of `EffectParameters::apply_to_buffer`: scales the
buffer so the maximum absolute sample becomes 1, skipping the division on a
silent buffer; `none` models the panics (empty buffer, failed post-`assert!`). -/
def normalizeBuffer (buffer : List ℚ) : Option (List ℚ) :=
  match maxAbs buffer with
  | none => none
  | some m =>
    if 0 ≤ m then
      let buffer1 := if 0 < m then buffer.map (fun s => s / m) else buffer
      match maxAbsElem buffer1 with
      | none => none
      | some v => if v ≤ 1 then some buffer1 else none
  else none

/-- `EffectParameters::apply_to_buffer` (src/parameters/effects.rs):
distortion applies the external `flexblock_synth::effects::distortion`
curve (abstracted as `distortionF`); normalize rescales in place. -/
def EffectParameters.applyToBuffer (distortionF : ℚ → ℚ → ℚ → ℚ) :
    EffectParameters → List ℚ → ℚ → Option (List ℚ)
  | .distortion power, buffer, signalAmplitude =>
    some (buffer.map (fun s => distortionF s power signalAmplitude))
  | .normalize, buffer, _ => normalizeBuffer buffer

/-! ## `DataParameters` and `DataPointParameters` (src/parameters/data.rs) -/

/-- `DataParameters` (src/parameters/data.rs): the immutable template. -/
structure DataParameters where
  sampleRate : ℕ
  frequencyDistribution : Uniform
  frequencyStdDevDistribution : LogUniform
  possibleChords : List ℕ
  octaveParameters : OctaveParameters
  oscillators : List OscillatorDistribution
  effects : List EffectDistribution
  numSamples : ℕ
  seedOffset : ℕ
  deriving DecidableEq

/-- `DataParameters::new`: validates the ranges, chord indices, sample count
and sample rate; derives the seed offset by double-hashing 0 and maps the
frequency range through the perceptual map. -/
def DataParameters.new (E : Externals) (sampleRate : ℕ) (frequencyRange : ℚ × ℚ)
    (frequencyStdDevRange : ℚ × ℚ) (possibleChords : List ℕ)
    (octaveParameters : OctaveParameters) (numSamples : ℕ) : Option DataParameters :=
  if frequencyRange.1 < frequencyRange.2 ∧ 0 < numSamples ∧ 0 < sampleRate ∧
      0 ≤ frequencyStdDevRange.1 ∧ frequencyStdDevRange.1 ≤ frequencyStdDevRange.2 ∧
      possibleChords ≠ [] ∧ (∀ c ∈ possibleChords, c < CHORD_TYPES.length) then
    (LogUniform.fromTuple frequencyStdDevRange).map (fun stdDist =>
      { sampleRate := sampleRate
        frequencyDistribution :=
          Uniform.new (E.frequencyToMap frequencyRange.1) (E.frequencyToMap frequencyRange.2)
        frequencyStdDevDistribution := stdDist
        possibleChords := possibleChords
        octaveParameters := octaveParameters
        oscillators := []
        effects := []
        numSamples := numSamples
        seedOffset := E.hash (E.hash 0) })
  else none

/-- `DataParameters::with_seed_offset`. -/
def DataParameters.withSeedOffset (E : Externals) (p : DataParameters) (seedOffset : ℕ) :
    DataParameters :=
  { p with seedOffset := E.hash (E.hash seedOffset) }

/-- `DataParameters::with_oscillator`: appends the oscillator distribution,
then fails (`panic!`, i.e. `none`) if the summed amplitude-range maxima
exceed 1. -/
def DataParameters.withOscillator (p : DataParameters) (t : OscillatorTypeDistribution)
    (probability : ℚ) (amplitudeRange : ℚ × ℚ) : Option DataParameters :=
  match OscillatorDistribution.new t probability amplitudeRange with
  | none => none
  | some d =>
    let oscillators := p.oscillators ++ [d]
    if 1 < (oscillators.map OscillatorDistribution.maximumAmplitude).sum then none
    else some { p with oscillators := oscillators }

/-- `DataParameters::with_effect`. -/
def DataParameters.withEffect (p : DataParameters) (t : EffectTypeDistribution)
    (probability : ℚ) : Option DataParameters :=
  (EffectDistribution.new t probability).map (fun d => { p with effects := p.effects ++ [d] })

/-- One pass of the oscillator sampling in `DataPointParameters::new`
(the `flat_map` over the template's oscillator distributions). -/
def sampleOscillators (E : Externals) :
    List OscillatorDistribution → Rng → List OscillatorParameters × Rng
  | [], r => ([], r)
  | d :: ds, r =>
    let (o, r1) := d.sample E r
    let (rest, r2) := sampleOscillators E ds r1
    (o.toList ++ rest, r2)

/-- The rejection loop of `DataPointParameters::new`: resample the
oscillator list until at least one sampled oscillator is frequency-bearing.
`none` is a run that has not terminated within `fuel` iterations. -/
def sampleOscillatorsLoop (E : Externals) (ds : List OscillatorDistribution) :
    ℕ → Rng → Option (List OscillatorParameters × Rng)
  | 0, _ => none
  | fuel + 1, r =>
    let (oscillators, r1) := sampleOscillators E ds r
    if oscillators.any OscillatorParameters.hasFrequency then some (oscillators, r1)
    else sampleOscillatorsLoop E ds fuel r1

/-- `SliceRandom::choose` (external `rand`): a uniform index draw into the
slice. -/
def chooseFromList (E : Externals) (l : List ℕ) (r : Rng) : Option ℕ × Rng :=
  if l.isEmpty then (none, r)
  else
    let (i, r1) := r.genRange E l.length
    (l.get? i, r1)

/-- The `flat_map` over the chord's non-root notes in
`DataPointParameters::new`, threading the generator through
`generate_frequencies` calls. -/
def generateOtherFrequencies (E : Externals) (fuel : ℕ) (p : OctaveParameters) :
    List ℚ → Rng → Option (List ℚ × Rng)
  | [], r => some ([], r)
  | f :: fs, r =>
    match p.generateFrequencies E fuel f false r with
    | none => none
    | some (l, r1) =>
      match generateOtherFrequencies E fuel p fs r1 with
      | none => none
      | some (l2, r2) => some (l ++ l2, r2)

/-- The `flat_map` over the template's effect distributions in
`DataPointParameters::new`. -/
def sampleEffects (E : Externals) :
    List EffectDistribution → Rng → List EffectParameters × Rng
  | [], r => ([], r)
  | d :: ds, r =>
    let (e, r1) := d.sample E r
    let (rest, r2) := sampleEffects E ds r1
    (e.toList ++ rest, r2)

/-- `DataPointParameters` (src/parameters/data.rs): a concrete sampled
datapoint recipe. -/
structure DataPointParameters where
  sampleRate : ℕ
  baseFrequency : ℚ
  frequencyStdDev : ℚ
  frequencyWalkSeed : ℕ
  chordType : ℕ
  frequencies : List ℚ
  oscillators : List OscillatorParameters
  effects : List EffectParameters
  numSamples : ℕ
  deriving DecidableEq

/-- `DataPointParameters::new` (src/parameters/data.rs): seeds a fresh
generator, samples the base frequency, runs the oscillator rejection loop,
chooses a chord, expands the frequency list through the octave generator,
then samples the walk std-dev, walk seed and effects, in source order.
`fuelOsc` bounds the rejection loop and `fuelOct` each octave-adding loop;
`none` models a panic or a non-terminated loop. -/
def DataPointParameters.new (E : Externals) (fuelOsc fuelOct : ℕ) (p : DataParameters)
    (seed : ℕ) : Option DataPointParameters :=
  let r := seedFromU64 seed
  let (frequencyMap, r1) := p.frequencyDistribution.sample E r
  let baseFrequency := E.mapToFrequency frequencyMap
  match sampleOscillatorsLoop E p.oscillators fuelOsc r1 with
  | none => none
  | some (oscillators, r2) =>
    match chooseFromList E p.possibleChords r2 with
    | (none, _) => none
    | (some chordType, r3) =>
      match CHORD_TYPES.get? chordType with
      | none => none
      | some (_, chord) =>
        match p.octaveParameters.generateFrequencies E fuelOct baseFrequency true r3 with
        | none => none
        | some (rootFrequencies, r4) =>
          match generateOtherFrequencies E fuelOct p.octaveParameters
              (chord.frequencies baseFrequency).tail r4 with
          | none => none
          | some (otherFrequencies, r5) =>
            let (frequencyStdDev, r6) := p.frequencyStdDevDistribution.sample E r5
            let (frequencyWalkSeed, r7) := r6.nextNat E
            let (effects, _) := sampleEffects E p.effects r7
            some
              { sampleRate := p.sampleRate
                baseFrequency := baseFrequency
                frequencyStdDev := frequencyStdDev
                frequencyWalkSeed := frequencyWalkSeed
                chordType := chordType
                frequencies := rootFrequencies ++ otherFrequencies
                oscillators := oscillators
                effects := effects
                numSamples := p.numSamples }

/-- `DataParameters::generate` (src/parameters/data.rs): asserts some
oscillator distribution is frequency-bearing, derives the per-index seed
`hash(index).wrapping_add(seed_offset)` and samples the datapoint. -/
def DataParameters.generate (E : Externals) (fuelOsc fuelOct : ℕ) (p : DataParameters)
    (index : ℕ) : Option DataPointParameters :=
  if p.oscillators.any OscillatorDistribution.hasFrequency then
    DataPointParameters.new E fuelOsc fuelOct p ((E.hash index + p.seedOffset) % 2 ^ 64)
  else none

/-! ## `src/audio.rs` -/

/-- `Audio` (src/audio.rs): a sample buffer with its sample rate. -/
structure Audio where
  samples : List ℚ
  sampleRate : ℕ
  deriving DecidableEq

/-- `Audio::from_samples`. -/
def Audio.fromSamples (samples : List ℚ) (sampleRate : ℕ) : Audio :=
  ⟨samples, sampleRate⟩

/-- The sampling loop of `Audio::samples_from_module`, pulling `n` samples
starting at index `i` from the instantiated module (a deterministic function
`ℕ → ℚ` of the sample index, the external "signal module capability"):
stops with the index of the first sample whose absolute value exceeds 1. -/
def samplesLoop (m : ℕ → ℚ) : ℕ → ℕ → Except ℕ (List ℚ)
  | 0, _ => .ok []
  | n + 1, i =>
    if 1 < |m i| then .error i
    else
      match samplesLoop m n (i + 1) with
      | .error j => .error j
      | .ok l => .ok (m i :: l)

/-- `Audio::samples_from_module` (src/audio.rs): `assert!(sample_rate != 0)`
then the sampling loop; `Except.error i` is `AudioGenerationError::Clipping(i)`. -/
def Audio.samplesFromModule (m : ℕ → ℚ) (sampleRate : ℕ) (numSamples : ℕ) :
    Option (Except ℕ Audio) :=
  if sampleRate = 0 then none
  else some
    (match samplesLoop m numSamples 0 with
     | .error i => .error i
     | .ok samples => .ok ⟨samples, sampleRate⟩)

/-- `Audio::fft` (src/audio.rs): real samples to a complex spectrum via the
external `rustfft` forward transform `fftF` (complex numbers as pairs of
rationals; `rustfft`'s in-place `process` preserves the buffer length). -/
def Audio.fftWith (fftF : List (ℚ × ℚ) → List (ℚ × ℚ)) (a : Audio) : List (ℚ × ℚ) :=
  fftF (a.samples.map (fun x => (x, 0)))

/-- `Audio::from_spectrum` (src/audio.rs): inverse transform via the
external `rustfft` inverse `ifftF`, then real parts normalized by the buffer
length. -/
def Audio.fromSpectrum (ifftF : List (ℚ × ℚ) → List (ℚ × ℚ))
    (spectrum : List (ℚ × ℚ)) (sampleRate : ℕ) : Audio :=
  let s := ifftF spectrum
  ⟨s.map (fun c => c.1 / (s.length : ℚ)), sampleRate⟩

/-- `low_pass` (src/effects.rs): forward FFT, zero every bin at index
`≥ cutoff_freq / sample_rate * num_bins` (truncated to an index as the
`as usize` cast does), inverse FFT. -/
def lowPass (fftF ifftF : List (ℚ × ℚ) → List (ℚ × ℚ)) (a : Audio) (cutoffFreq : ℚ) :
    Audio :=
  let spectrum := a.fftWith fftF
  let cutoffIndex : ℕ := (⌊cutoffFreq / (a.sampleRate : ℚ) * (spectrum.length : ℚ)⌋).toNat
  let spectrum1 := spectrum.mapIdx (fun i v => if i < cutoffIndex then v else (0, 0))
  Audio.fromSpectrum ifftF spectrum1 a.sampleRate

/-! ## The signal-module layer (external `flexblock_synth` runtime)

The module combinators used by the rendering code are embedded as a small
syntax tree; their sample-level behaviour is supplied by an
`OscillatorBehaviours` record, since the oscillator implementations live in
the external `flexblock_synth` crate (the spec's "signal module
capability").  Oscillators taking a frequency input receive the frequency
module's whole trace, so a wandering frequency is observable by the
behaviour. -/

/-- Syntax of the module expressions built by the rendering code. -/
inductive ModuleWave where
  | constant (value : ℚ) : ModuleWave
  | sineOsc (frequency : ModuleWave) (sampleRate : ℕ) : ModuleWave
  | sawOsc (frequency : ModuleWave) (sampleRate : ℕ) : ModuleWave
  | pulseOsc (frequency : ModuleWave) (dutyCycle : ℚ) (sampleRate : ℕ) : ModuleWave
  | triangleOsc (frequency : ModuleWave) (sampleRate : ℕ) : ModuleWave
  | noiseOsc (seed : ℕ) : ModuleWave
  | randomWalk (seed : ℕ) (stdDev : ℚ) (dampening : ℚ) (sampleRate : ℕ) : ModuleWave
  | addConst (m : ModuleWave) (value : ℚ) : ModuleWave
  | clampWave (m : ModuleWave) (lo hi : ℚ) : ModuleWave
  deriving DecidableEq

/-- Sample-level behaviour of the external `flexblock_synth` oscillators:
each is a deterministic function of its parameters and the sample index
(oscillators with a frequency input additionally see the frequency trace). -/
structure OscillatorBehaviours where
  sineNext : (ℕ → ℚ) → ℕ → ℕ → ℚ
  sawNext : (ℕ → ℚ) → ℕ → ℕ → ℚ
  pulseNext : (ℕ → ℚ) → ℚ → ℕ → ℕ → ℚ
  triangleNext : (ℕ → ℚ) → ℕ → ℕ → ℚ
  noiseNext : ℕ → ℕ → ℚ
  walkNext : ℕ → ℚ → ℚ → ℕ → ℕ → ℚ
  /-- `(2f32).powf`, used for the cents-to-ratio conversion of the walk
  standard deviation. -/
  pow2 : ℚ → ℚ
  /-- `flexblock_synth::effects::distortion(sample, power, amplitude)`. -/
  distortion : ℚ → ℚ → ℚ → ℚ

/-- `Module::next`: the sample produced by a module expression at a sample
index.  `Clamp` restricts its input module to `[lo, hi]`, `+` adds a
constant. -/
def ModuleWave.next (B : OscillatorBehaviours) : ModuleWave → ℕ → ℚ
  | .constant v, _ => v
  | .sineOsc f rate, t => B.sineNext (fun u => f.next B u) rate t
  | .sawOsc f rate, t => B.sawNext (fun u => f.next B u) rate t
  | .pulseOsc f duty rate, t => B.pulseNext (fun u => f.next B u) duty rate t
  | .triangleOsc f rate, t => B.triangleNext (fun u => f.next B u) rate t
  | .noiseOsc seed, t => B.noiseNext seed t
  | .randomWalk seed sd damp rate, t => B.walkNext seed sd damp rate t
  | .addConst m v, t => m.next B t + v
  | .clampWave m lo hi, t => max lo (min hi (m.next B t))

/-- Whether a module expression contains a `RandomWalk` node anywhere. -/
def ModuleWave.containsRandomWalk : ModuleWave → Bool
  | .constant _ => false
  | .sineOsc f _ => f.containsRandomWalk
  | .sawOsc f _ => f.containsRandomWalk
  | .pulseOsc f _ _ => f.containsRandomWalk
  | .triangleOsc f _ => f.containsRandomWalk
  | .noiseOsc _ => false
  | .randomWalk _ _ _ _ => true
  | .addConst m _ => m.containsRandomWalk
  | .clampWave m _ _ => m.containsRandomWalk

/-- The module expression built by `OscillatorParameters::write`
(src/parameters/oscillators.rs): a damped frequency random walk (dampening
0.9, std-dev `frequency * (2^(std_dev/1200) - 1)`) added to the nominal
frequency feeds the waveform; pulse gets a DC offset; noise ignores the
frequency module. -/
def OscillatorParameters.writeModule (B : OscillatorBehaviours) (o : OscillatorParameters)
    (frequency frequencyStdDev : ℚ) (walkSeed : ℕ) (sampleRate : ℕ) : ModuleWave :=
  let walkStdDev := frequency * (B.pow2 (frequencyStdDev / 1200) - 1)
  let frequencyModule : ModuleWave :=
    .addConst (.randomWalk walkSeed walkStdDev (9 / 10) sampleRate) frequency
  match o.oscillatorType with
  | .sine => .sineOsc frequencyModule sampleRate
  | .saw => .sawOsc frequencyModule sampleRate
  | .pulse duty => .addConst (.pulseOsc frequencyModule duty sampleRate) (-(duty * 2 - 1))
  | .triangle => .triangleOsc frequencyModule sampleRate
  | .noise seed => .noiseOsc seed

/-- `OscillatorParameters::write` (src/parameters/oscillators.rs): adds the
amplitude-scaled module output into the buffer, sample by sample. -/
def OscillatorParameters.write (B : OscillatorBehaviours) (o : OscillatorParameters)
    (frequency frequencyStdDev : ℚ) (walkSeed : ℕ) (sampleRate : ℕ)
    (buffer : List ℚ) : List ℚ :=
  let m := (o.writeModule B frequency frequencyStdDev walkSeed sampleRate).next B
  buffer.mapIdx (fun i s => s + m i * o.amplitude)

/-- `OscillatorParameters::create_oscillator` (src/lib.rs): the historical
fixed-frequency variant; noise is wrapped in `Clamp::new(.., -1., 1.)`. -/
def OscillatorParameters.createOscillator (o : OscillatorParameters) (frequency : ℚ)
    (sampleRate : ℕ) : ModuleWave :=
  match o.oscillatorType with
  | .sine => .sineOsc (.constant frequency) sampleRate
  | .saw => .sawOsc (.constant frequency) sampleRate
  | .pulse width => .pulseOsc (.constant frequency) width sampleRate
  | .triangle => .triangleOsc (.constant frequency) sampleRate
  | .noise seed => .clampWave (.noiseOsc seed) (-1) 1

/-! ## `DataPoint` (src/data.rs) -/

/-- `DataPoint` (src/data.rs): rendered audio plus the recipe. -/
structure DataPoint where
  audio : Audio
  parameters : DataPointParameters
  deriving DecidableEq

/-- `DataPoint::generate_from_oscillators` (src/data.rs): a zeroed buffer,
one `write` per (frequency, oscillator) pair with per-pair walk seeds drawn
from a generator seeded by `frequency_walk_seed`, then the whole buffer
scaled by `1 / num_notes` of the chord. -/
def DataPoint.generateFromOscillators (E : Externals) (B : OscillatorBehaviours)
    (p : DataPointParameters) : Option (List ℚ) :=
  match CHORD_TYPES.get? p.chordType with
  | none => none
  | some (_, chord) =>
    let start : List ℚ × Rng :=
      (List.replicate p.numSamples 0, seedFromU64 p.frequencyWalkSeed)
    let result := p.frequencies.foldl
      (fun acc frequency =>
        p.oscillators.foldl
          (fun acc2 o =>
            let (walkSeed, r1) := acc2.2.nextNat E
            (o.write B frequency p.frequencyStdDev walkSeed p.sampleRate acc2.1, r1))
          acc)
      start
    some (result.1.map (fun s => s * (1 / (chord.numNotes : ℚ))))

/-- `DataPoint::apply_effects` (src/data.rs): the summed nominal oscillator
amplitude is the distortion reference scale; effects fold over the buffer in
list order. -/
def DataPoint.applyEffects (B : OscillatorBehaviours) (p : DataPointParameters)
    (buffer : List ℚ) : Option (List ℚ) :=
  let totalAmplitude := (p.oscillators.map OscillatorParameters.amplitude).sum
  p.effects.foldl
    (fun acc e => acc.bind (fun b => e.applyToBuffer B.distortion b totalAmplitude))
    (some buffer)

/-- `DataPoint::new` (src/data.rs): render, apply effects, wrap in `Audio`
via `Audio::from_samples`.  The `Except` mirrors the Rust
`Result<Self, AudioGenerationError>` signature; this path performs no
clipping check, so it never produces the `error` case. -/
def DataPoint.new (E : Externals) (B : OscillatorBehaviours) (p : DataPointParameters) :
    Option (Except ℕ DataPoint) :=
  match DataPoint.generateFromOscillators E B p with
  | none => none
  | some samples =>
    match DataPoint.applyEffects B p samples with
    | none => none
    | some samples1 => some (.ok ⟨Audio.fromSamples samples1 p.sampleRate, p⟩)

/-- The full per-index pipeline: `DataParameters::generate` followed by
`DataPointParameters::generate` (i.e. `DataPoint::new`). -/
def generateDataPoint (E : Externals) (B : OscillatorBehaviours) (fuelOsc fuelOct : ℕ)
    (p : DataParameters) (index : ℕ) : Option (Option (Except ℕ DataPoint)) :=
  (p.generate E fuelOsc fuelOct index).map (fun d => DataPoint.new E B d)

/-! ## Concrete instantiations used to evaluate the embedding -/

/-- A concrete instantiation of the external collaborators (all draws zero,
all Bernoulli outcomes `false`, identity hash and frequency maps). -/
def trivialExternals : Externals where
  hash := id
  rngNat := fun _ _ => 0
  rngBool := fun _ _ => false
  rngRat := fun _ _ => 0
  frequencyToMap := id
  mapToFrequency := id
  logUniformValue := fun _ _ => 1

/-- External draws whose second Bernoulli outcome (draw index 1, the
oscillator-inclusion draw of the sampled template below) is `true` and all
others `false`. -/
def witnessExternals : Externals :=
  { trivialExternals with rngBool := fun _ pos => decide (pos = 1) }

/-- A concrete template: one sine oscillator, no effects, octave bounds
`[100, 400]` (as built by `DataParameters::new` + `with_oscillator` with the
trivial externals). -/
def witnessTemplate : DataParameters :=
  ⟨44100, ⟨100, 400⟩, ⟨1, 3⟩, [0], ⟨0, 0, 100, 400⟩,
    [⟨.sine, 1, ⟨1 / 2, 7 / 10⟩⟩], [], 256, 0⟩

/-- Constant external oscillator behaviours: every waveform outputs 1 (a
value the module contract allows), the walk is zero, distortion is the
identity. -/
def constBehaviours : OscillatorBehaviours where
  sineNext := fun _ _ _ => 1
  sawNext := fun _ _ _ => 1
  pulseNext := fun _ _ _ _ => 1
  triangleNext := fun _ _ _ => 1
  noiseNext := fun _ _ => 1
  walkNext := fun _ _ _ _ _ => 0
  pow2 := fun _ => 1
  distortion := fun s _ _ => s

/-- Behaviours whose noise oscillator outputs 2 at every sample (an
unbounded noise source, as a raw `NoiseOscillator` may be). -/
def loudNoiseBehaviours : OscillatorBehaviours :=
  { constBehaviours with noiseNext := fun _ _ => 2 }

/-- A datapoint recipe whose expanded frequency list holds two octave
copies of one chord note, with a full-scale sine oscillator: its rendered
buffer reaches amplitude 2. -/
def clippingParameters : DataPointParameters :=
  ⟨44100, 400, 0, 0, 0, [400, 800], [⟨.sine, 1⟩], [], 1⟩

/-- Building a template by a `with_oscillator` call sequence. -/
def buildTemplate (start : Option DataParameters)
    (specs : List (OscillatorTypeDistribution × ℚ × (ℚ × ℚ))) : Option DataParameters :=
  specs.foldl (fun acc s => acc.bind (fun p => p.withOscillator s.1 s.2.1 s.2.2)) start

/-! ## Theorems

Concrete executions of the embedding are checked by `decide`; the Batteries
rational-arithmetic definitions are restored to their default reducibility so
that the `Decidable` instances evaluate (the kernel re-checks every such
evaluation; reducibility attributes have no bearing on soundness). -/

set_option allowUnsafeReducibility true

attribute [semireducible] Rat.add Rat.mul Rat.inv Rat.sub

/-- Any template accepted by `with_oscillator` satisfies the amplitude
budget. -/
theorem withOscillator_budget (p : DataParameters) (t : OscillatorTypeDistribution)
    (probability : ℚ) (amplitudeRange : ℚ × ℚ) (q : DataParameters)
    (h : p.withOscillator t probability amplitudeRange = some q) :
    (q.oscillators.map OscillatorDistribution.maximumAmplitude).sum ≤ 1 := by
  unfold DataParameters.withOscillator at h
  rcases hd : OscillatorDistribution.new t probability amplitudeRange with _ | d
  · rw [hd] at h; exact absurd h (by simp)
  · rw [hd] at h
    simp only at h
    split at h
    · exact absurd h (by simp)
    · rename_i hle
      rcases Option.some_inj.mp h
      simpa using le_of_not_lt hle

/-- A freshly constructed template has no oscillators. -/
theorem new_oscillators_nil (E : Externals) (sampleRate : ℕ) (frequencyRange : ℚ × ℚ)
    (frequencyStdDevRange : ℚ × ℚ) (possibleChords : List ℕ)
    (octaveParameters : OctaveParameters) (numSamples : ℕ) (p : DataParameters)
    (h : DataParameters.new E sampleRate frequencyRange frequencyStdDevRange possibleChords
      octaveParameters numSamples = some p) : p.oscillators = [] := by
  unfold DataParameters.new at h
  split at h
  · rcases hd : LogUniform.fromTuple frequencyStdDevRange with _ | d <;> rw [hd] at h
    · exact absurd h (by simp)
    · rcases Option.some_inj.mp (by simpa using h); rfl
  · exact absurd h (by simp)

/-- Invariant propagation through a `with_oscillator` call sequence. -/
theorem buildTemplate_budget (specs : List (OscillatorTypeDistribution × ℚ × (ℚ × ℚ)))
    (start : Option DataParameters) (tpl : DataParameters)
    (hstart : ∀ s, start = some s →
      (s.oscillators.map OscillatorDistribution.maximumAmplitude).sum ≤ 1)
    (h : buildTemplate start specs = some tpl) :
    (tpl.oscillators.map OscillatorDistribution.maximumAmplitude).sum ≤ 1 := by
  induction specs generalizing start with
  | nil => exact hstart tpl h
  | cons s rest ih =>
    refine ih (start.bind (fun p => p.withOscillator s.1 s.2.1 s.2.2)) ?_ h
    intro s1 hs1
    rcases hst : start with _ | p <;> rw [hst] at hs1
    · exact absurd hs1 (by simp)
    · exact withOscillator_budget p s.1 s.2.1 s.2.2 s1 (by simpa using hs1)

/-- C3.  For every accepted `DataParameters` template the sum over
oscillator slots of the configured amplitude-range maxima is at most 1, and
a `with_oscillator` call whose new sum would exceed 1 fails at
template-build time (the builder returns no template). -/
theorem amplitude_budget_enforced_at_build_time :
    (∀ (E : Externals) (sampleRate : ℕ) (frequencyRange frequencyStdDevRange : ℚ × ℚ)
      (possibleChords : List ℕ) (octaveParameters : OctaveParameters) (numSamples : ℕ)
      (specs : List (OscillatorTypeDistribution × ℚ × (ℚ × ℚ))) (tpl : DataParameters),
      buildTemplate (DataParameters.new E sampleRate frequencyRange frequencyStdDevRange
        possibleChords octaveParameters numSamples) specs = some tpl →
      (tpl.oscillators.map OscillatorDistribution.maximumAmplitude).sum ≤ 1) ∧
    (∀ (p : DataParameters) (t : OscillatorTypeDistribution) (probability : ℚ)
      (amplitudeRange : ℚ × ℚ) (d : OscillatorDistribution),
      OscillatorDistribution.new t probability amplitudeRange = some d →
      1 < ((p.oscillators ++ [d]).map OscillatorDistribution.maximumAmplitude).sum →
      p.withOscillator t probability amplitudeRange = none) := by
  constructor
  · intro E sampleRate fr sr chords op ns specs tpl h
    refine buildTemplate_budget specs _ tpl ?_ h
    intro s hs
    rw [new_oscillators_nil E sampleRate fr sr chords op ns s hs]
    norm_num
  · intro p t probability amplitudeRange d hd hsum
    unfold DataParameters.withOscillator
    rw [hd]
    simp only
    split
    · rfl
    · rename_i hle
      exact absurd hsum hle

/-- Witness for C3: a concretely built one-oscillator template satisfies
the budget. -/
theorem amplitude_budget_enforced_at_build_time_witness :
    buildTemplate (DataParameters.new trivialExternals 44100 (100, 400) (1, 3) [0]
      ⟨0, 0, 100, 400⟩ 256) [(.sine, 1, (1 / 2, 7 / 10))] = some witnessTemplate ∧
    (witnessTemplate.oscillators.map OscillatorDistribution.maximumAmplitude).sum ≤ 1 := by
  refine ⟨by decide, ?_⟩
  exact amplitude_budget_enforced_at_build_time.1 trivialExternals 44100 (100, 400) (1, 3)
    [0] ⟨0, 0, 100, 400⟩ 256 [(.sine, 1, (1 / 2, 7 / 10))] witnessTemplate (by decide)

/-- The rejection loop only ever returns an oscillator list with a
frequency-bearing member: its exit condition is that very predicate. -/
theorem sampleOscillatorsLoop_hasFrequency (E : Externals) (ds : List OscillatorDistribution) :
    ∀ (fuel : ℕ) (r : Rng) (os : List OscillatorParameters) (r1 : Rng),
      sampleOscillatorsLoop E ds fuel r = some (os, r1) →
      os.any OscillatorParameters.hasFrequency = true := by
  intro fuel
  induction fuel with
  | zero => intro r os r1 h; exact absurd h (by simp [sampleOscillatorsLoop])
  | succ n ih =>
    intro r os r1 h
    unfold sampleOscillatorsLoop at h
    rcases hso : sampleOscillators E ds r with ⟨oscs, r2⟩
    rw [hso] at h
    simp only at h
    split at h
    · rename_i hany
      rcases Option.some_inj.mp h
      exact hany
    · exact ih r2 os r1 h

/-- The oscillators of any sampled `DataPointParameters` come from the
rejection loop, so one of them is frequency-bearing. -/
theorem new_has_frequency_bearing (E : Externals) (fuelOsc fuelOct : ℕ)
    (p : DataParameters) (seed : ℕ) (d : DataPointParameters)
    (h : DataPointParameters.new E fuelOsc fuelOct p seed = some d) :
    d.oscillators.any OscillatorParameters.hasFrequency = true := by
  unfold DataPointParameters.new at h
  simp only at h
  split at h
  · exact absurd h (by simp)
  · rename_i oscs r2 hloop
    split at h
    · exact absurd h (by simp)
    · split at h
      · exact absurd h (by simp)
      · split at h
        · exact absurd h (by simp)
        · split at h
          · exact absurd h (by simp)
          · rcases Option.some_inj.mp h
            exact sampleOscillatorsLoop_hasFrequency E p.oscillators fuelOsc _ oscs r2 hloop

/-- C2.  Every `DataPointParameters` produced by sampling a template
(`DataParameters::generate`) contains at least one present frequency-bearing
oscillator (`OscillatorParameters::has_frequency`, on which noise never
counts): the Bernoulli inclusion sampling is repeated until this holds. -/
theorem generated_datapoint_has_frequency_bearing_oscillator (E : Externals)
    (fuelOsc fuelOct : ℕ) (p : DataParameters) (index : ℕ) (d : DataPointParameters)
    (h : DataParameters.generate E fuelOsc fuelOct p index = some d) :
    d.oscillators.any OscillatorParameters.hasFrequency = true := by
  unfold DataParameters.generate at h
  split at h
  · exact new_has_frequency_bearing E fuelOsc fuelOct p _ d h
  · exact absurd h (by simp)

/-- Witness for C2: a concrete sampled datapoint from the one-sine-oscillator
template, with its frequency-bearing oscillator present. -/
theorem generated_datapoint_has_frequency_bearing_oscillator_witness :
    DataParameters.generate witnessExternals 5 5 witnessTemplate 0 =
      some ⟨44100, 100, 1, 0, 0, [100], [⟨.sine, 1⟩], [], 256⟩ ∧
    ([⟨.sine, (1 : ℚ)⟩] : List OscillatorParameters).any
      OscillatorParameters.hasFrequency = true := by
  refine ⟨by decide, ?_⟩
  exact generated_datapoint_has_frequency_bearing_oscillator witnessExternals 5 5
    witnessTemplate 0 ⟨44100, 100, 1, 0, 0, [100], [⟨.sine, 1⟩], [], 256⟩ (by decide)

/-- The running maximum of absolute values never drops below its seed. -/
theorem foldlMaxAbs_le_self (xs : List ℚ) : ∀ A : ℚ, A ≤ xs.foldl (fun a b => max a |b|) A := by
  induction xs with
  | nil => intro A; simp
  | cons x xs ih =>
    intro A
    calc A ≤ max A |x| := le_max_left _ _
    _ ≤ xs.foldl (fun a b => max a |b|) (max A |x|) := ih (max A |x|)

/-- The running maximum of absolute values bounds every list element. -/
theorem foldlMaxAbs_bounds (xs : List ℚ) :
    ∀ (A : ℚ) (x : ℚ), x ∈ xs → |x| ≤ xs.foldl (fun a b => max a |b|) A := by
  induction xs with
  | nil => intro A x hx; exact absurd hx (by simp)
  | cons y ys ih =>
    intro A x hx
    rcases List.mem_cons.mp hx with hxy | hmem
    · subst hxy
      calc |x| ≤ max A |x| := le_max_right _ _
      _ ≤ ys.foldl (fun a b => max a |b|) (max A |x|) := foldlMaxAbs_le_self ys _
    · exact ih (max A |y|) x hmem

/-- `maxAbs` bounds every element of the buffer. -/
theorem maxAbs_is_bound (l : List ℚ) (m : ℚ) (h : maxAbs l = some m) :
    ∀ x ∈ l, |x| ≤ m := by
  rcases l with _ | ⟨y, ys⟩
  · intro x hx; exact absurd hx (by simp)
  · intro x hx
    rcases Option.some_inj.mp h
    rcases List.mem_cons.mp hx with hxy | hmem
    · subst hxy
      calc |x| ≤ max |x| 0 := le_max_left _ _
      _ = |x| := by simp
      _ ≤ ys.foldl (fun a b => max a |b|) |x| := foldlMaxAbs_le_self ys _
    · exact foldlMaxAbs_bounds ys |y| x hmem

/-- `maxAbs` is non-negative. -/
theorem maxAbs_nonneg (l : List ℚ) (m : ℚ) (h : maxAbs l = some m) : 0 ≤ m := by
  rcases l with _ | ⟨y, ys⟩
  · exact absurd h (by simp [maxAbs])
  · rcases Option.some_inj.mp h
    calc (0 : ℚ) ≤ |y| := abs_nonneg y
    _ ≤ ys.foldl (fun a b => max a |b|) |y| := foldlMaxAbs_le_self ys _

/-- Dividing the buffer by a positive constant divides the running maximum. -/
theorem foldlMaxAbs_map_div (m : ℚ) (hm : 0 < m) (xs : List ℚ) :
    ∀ A : ℚ, (xs.map (fun s => s / m)).foldl (fun a b => max a |b|) (A / m) =
      xs.foldl (fun a b => max a |b|) A / m := by
  induction xs with
  | nil => intro A; simp
  | cons x xs ih =>
    intro A
    have habs : |x / m| = |x| / m := by
      rw [abs_div, abs_of_pos hm]
    simp only [List.map_cons, List.foldl_cons, habs,
      max_div_div_right (le_of_lt hm)]
    exact ih (max A |x|)

/-- `maxAbs` of the rescaled buffer. -/
theorem maxAbs_map_div (l : List ℚ) (m M : ℚ) (hm : 0 < m) (h : maxAbs l = some M) :
    maxAbs (l.map (fun s => s / m)) = some (M / m) := by
  rcases l with _ | ⟨y, ys⟩
  · exact absurd h (by simp [maxAbs])
  · rcases Option.some_inj.mp h
    have habs : |y / m| = |y| / m := by rw [abs_div, abs_of_pos hm]
    simp only [maxAbs, List.map_cons, habs]
    rw [foldlMaxAbs_map_div m hm ys |y|]

/-- The element reported by `maxAbsElem` realizes the `maxAbs` value. -/
theorem maxAbsElem_abs (xs : List ℚ) :
    ∀ x : ℚ, |xs.foldl (fun a b => if |a| ≤ |b| then b else a) x| =
      xs.foldl (fun a b => max a |b|) |x| := by
  induction xs with
  | nil => intro x; simp
  | cons y ys ih =>
    intro x
    have hpick : |if |x| ≤ |y| then y else x| = max |x| |y| := by
      split
      · rename_i hle; exact (max_eq_right hle).symm
      · rename_i hlt; exact (max_eq_left (le_of_not_le hlt)).symm
    simp only [List.foldl_cons]
    rw [ih (if |x| ≤ |y| then y else x), hpick]

/-- The element reported by `maxAbsElem` belongs to the buffer. -/
theorem maxAbsElem_mem (xs : List ℚ) :
    ∀ (x v : ℚ), xs.foldl (fun a b => if |a| ≤ |b| then b else a) x = v →
      v ∈ x :: xs := by
  induction xs with
  | nil => intro x v h; simp only [List.foldl_nil] at h; simp [h]
  | cons y ys ih =>
    intro x v h
    simp only [List.foldl_cons] at h
    have := ih (if |x| ≤ |y| then y else x) v h
    rcases List.mem_cons.mp this with h1 | h2
    · split at h1 <;> simp [h1]
    · simp [List.mem_cons.mpr (Or.inr h2)]

/-- `maxAbsElem` of a non-empty buffer: an element realizing the `maxAbs`
value. -/
theorem maxAbsElem_spec (y : ℚ) (ys : List ℚ) :
    ∃ v, maxAbsElem (y :: ys) = some v ∧ maxAbs (y :: ys) = some |v| ∧
      v ∈ y :: ys := by
  refine ⟨ys.foldl (fun a b => if |a| ≤ |b| then b else a) y, rfl, ?_, ?_⟩
  · simp only [maxAbs, maxAbsElem, Option.some_inj]
    exact (maxAbsElem_abs ys y).symm
  · exact maxAbsElem_mem ys y _ rfl

/-- On a buffer whose `maxAbs` is positive, `normalizeBuffer` divides every
sample by that maximum (and its post-condition `assert!` passes). -/
theorem normalizeBuffer_of_pos (y : ℚ) (ys : List ℚ) (M : ℚ)
    (hM : maxAbs (y :: ys) = some M) (hMpos : 0 < M) :
    normalizeBuffer (y :: ys) = some ((y :: ys).map (fun s => s / M)) := by
  have hl1 : maxAbs ((y :: ys).map (fun s => s / M)) = some 1 := by
    rw [maxAbs_map_div (y :: ys) M M hMpos hM, div_self (ne_of_gt hMpos)]
  unfold normalizeBuffer
  rw [hM]
  dsimp only
  rw [if_pos (le_of_lt hMpos), if_pos hMpos]
  rcases maxAbsElem_spec (y / M) (ys.map (fun s => s / M)) with ⟨v, hv, hvabs, _⟩
  simp only [List.map_cons] at hl1 ⊢
  rw [hv]
  rw [hl1] at hvabs
  have h1 : v ≤ 1 := le_trans (le_abs_self v) (le_of_eq (Option.some_inj.mp hvabs).symm)
  dsimp only
  rw [if_pos h1]

/-- C8.  The normalize effect (the `Normalize` arm of
`EffectParameters::apply_to_buffer`) is idempotent on non-silent buffers:
it succeeds, leaves the maximum absolute sample exactly 1, and applying it
again returns the same buffer; on a silent buffer it is a no-op (no division
happens, hence none by zero). -/
theorem normalize_idempotent_and_silent_noop :
    (∀ l : List ℚ, l ≠ [] → (∃ x ∈ l, x ≠ 0) →
      ∃ l1, normalizeBuffer l = some l1 ∧ maxAbs l1 = some 1 ∧
        normalizeBuffer l1 = some l1) ∧
    (∀ l : List ℚ, l ≠ [] → (∀ x ∈ l, x = 0) → normalizeBuffer l = some l) := by
  constructor
  · intro l hne hnz
    rcases l with _ | ⟨y, ys⟩
    · exact absurd rfl hne
    rcases hM : maxAbs (y :: ys) with _ | M
    · exact absurd hM (by simp [maxAbs])
    have hMpos : 0 < M := by
      rcases hnz with ⟨x, hxl, hx0⟩
      calc (0 : ℚ) < |x| := abs_pos.mpr hx0
      _ ≤ M := maxAbs_is_bound _ M hM x hxl
    have hl1 : maxAbs ((y :: ys).map (fun s => s / M)) = some 1 := by
      rw [maxAbs_map_div (y :: ys) M M hMpos hM, div_self (ne_of_gt hMpos)]
    refine ⟨(y :: ys).map (fun s => s / M), normalizeBuffer_of_pos y ys M hM hMpos,
      hl1, ?_⟩
    rcases hmap : (y :: ys).map (fun s => s / M) with _ | ⟨z, zs⟩
    · exact absurd hmap (by simp)
    rw [hmap] at hl1
    have := normalizeBuffer_of_pos z zs 1 hl1 one_pos
    rw [this]
    simp
  · intro l hne hzero
    rcases l with _ | ⟨y, ys⟩
    · exact absurd rfl hne
    have hfold : ∀ (zs : List ℚ), (∀ x ∈ zs, x = 0) → ∀ A : ℚ, 0 ≤ A →
        zs.foldl (fun a b => max a |b|) A = A := by
      intro zs
      induction zs with
      | nil => intro _ A _; rfl
      | cons z zs ih =>
        intro hall A hA
        have hz : z = 0 := hall z (by simp)
        subst hz
        simp only [List.foldl_cons, abs_zero, max_eq_left hA]
        exact ih (fun x hx => hall x (by simp [hx])) A hA
    have hM : maxAbs (y :: ys) = some 0 := by
      have hy : y = 0 := hzero y (by simp)
      subst hy
      simp only [maxAbs, abs_zero, Option.some_inj]
      exact hfold ys (fun x hx => hzero x (by simp [hx])) 0 (le_refl 0)
    unfold normalizeBuffer
    rw [hM]
    dsimp only
    rw [if_pos (le_refl (0 : ℚ)), if_neg (lt_irrefl (0 : ℚ))]
    rcases maxAbsElem_spec y ys with ⟨v, hv, hvabs, hvmem⟩
    rw [hv]
    have hv0 : v = 0 := hzero v hvmem
    dsimp only
    rw [if_pos (by rw [hv0]; norm_num)]

/-- Witness for C8: the buffer `[1/2]` normalizes to `[1]`, stays fixed under
a second application, and the silent buffer `[0]` is untouched. -/
theorem normalize_idempotent_and_silent_noop_witness :
    (normalizeBuffer [(1 : ℚ) / 2] = some [1] ∧ maxAbs [(1 : ℚ)] = some 1 ∧
      normalizeBuffer [(1 : ℚ)] = some [1]) ∧
    (∃ l1, normalizeBuffer [(1 : ℚ) / 2] = some l1 ∧ maxAbs l1 = some 1 ∧
      normalizeBuffer l1 = some l1) ∧
    normalizeBuffer [(0 : ℚ)] = some [0] := by
  refine ⟨⟨by decide, by decide, by decide⟩, ?_, ?_⟩
  · exact normalize_idempotent_and_silent_noop.1 [(1 : ℚ) / 2] (by decide) (by decide)
  · exact normalize_idempotent_and_silent_noop.2 [(0 : ℚ)] (by decide) (by decide)

/-- The sampling loop fails exactly at the first clipping index at or after
its start. -/
theorem samplesLoop_error_spec (m : ℕ → ℚ) :
    ∀ (n i j : ℕ), samplesLoop m n i = .error j →
      i ≤ j ∧ j < i + n ∧ 1 < |m j| ∧ ∀ k, i ≤ k → k < j → |m k| ≤ 1 := by
  intro n
  induction n with
  | zero => intro i j h; exact absurd h (by simp [samplesLoop])
  | succ n ih =>
    intro i j h
    unfold samplesLoop at h
    split at h
    · rename_i hclip
      rcases h
      exact ⟨le_refl i, by omega, hclip, fun k hk1 hk2 => absurd (lt_of_le_of_lt hk1 hk2)
        (lt_irrefl i)⟩
    · rename_i hok
      rcases hrec : samplesLoop m n (i + 1) with j1 | l <;> rw [hrec] at h
      · rcases h
        rcases ih (i + 1) j hrec with ⟨h1, h2, h3, h4⟩
        refine ⟨by omega, by omega, h3, ?_⟩
        intro k hk1 hk2
        rcases Nat.eq_or_lt_of_le hk1 with hk | hk
        · rcases hk; exact le_of_not_lt hok
        · exact h4 k hk hk2
      · exact absurd h (by simp)

/-- The sampling loop returns exactly the module's samples when none clips. -/
theorem samplesLoop_ok_spec (m : ℕ → ℚ) :
    ∀ (n i : ℕ) (l : List ℚ), samplesLoop m n i = .ok l →
      l = (List.range n).map (fun k => m (i + k)) ∧ ∀ x ∈ l, |x| ≤ 1 := by
  intro n
  induction n with
  | zero =>
    intro i l h
    unfold samplesLoop at h
    rcases h
    exact ⟨by simp, by simp⟩
  | succ n ih =>
    intro i l h
    unfold samplesLoop at h
    split at h
    · exact absurd h (by simp)
    · rename_i hok
      rcases hrec : samplesLoop m n (i + 1) with j1 | l1 <;> rw [hrec] at h
      · exact absurd h (by simp)
      · rcases h
        rcases ih (i + 1) l1 hrec with ⟨h1, h2⟩
        constructor
        · rw [h1, List.range_succ_eq_map]
          simp only [List.map_cons, List.map_map, Nat.add_zero]
          congr 1
          apply List.map_congr_left
          intro k _
          simp only [Function.comp_apply]
          congr 1
          omega
        · intro x hx
          rcases List.mem_cons.mp hx with hx1 | hx2
          · rcases hx1; exact le_of_not_lt hok
          · exact h2 x hx2

/-- C6 (amended).  `Audio::samples_from_module` fails with a `Clipping`
error carrying the index of the first sample whose absolute value exceeds 1
(such an error is raised whenever any pulled sample clips), and on success
every produced sample has absolute value at most 1.  (The claim's further
assertion that rendering a *datapoint* performs this check is refuted
separately: `DataPoint::new` in src/data.rs builds the audio with
`Audio::from_samples` and never checks for clipping.) -/
theorem samples_from_module_clipping_spec (m : ℕ → ℚ) (sampleRate n : ℕ)
    (hrate : sampleRate ≠ 0) :
    (∀ j, Audio.samplesFromModule m sampleRate n = some (.error j) →
      j < n ∧ 1 < |m j| ∧ ∀ k, k < j → |m k| ≤ 1) ∧
    (∀ a, Audio.samplesFromModule m sampleRate n = some (.ok a) →
      a.samples.length = n ∧ a.sampleRate = sampleRate ∧ ∀ x ∈ a.samples, |x| ≤ 1) ∧
    ((∃ i, i < n ∧ 1 < |m i|) →
      ∃ j, Audio.samplesFromModule m sampleRate n = some (.error j)) := by
  have hbase : Audio.samplesFromModule m sampleRate n =
      some (match samplesLoop m n 0 with
            | .error i => .error i
            | .ok samples => .ok ⟨samples, sampleRate⟩) := by
    unfold Audio.samplesFromModule
    rw [if_neg hrate]
  refine ⟨?_, ?_, ?_⟩
  · intro j h
    rw [hbase] at h
    rcases hloop : samplesLoop m n 0 with j1 | l <;> rw [hloop] at h
    · rcases Option.some_inj.mp h
      rcases samplesLoop_error_spec m n 0 j hloop with ⟨_, h2, h3, h4⟩
      exact ⟨by omega, h3, fun k hk => h4 k (Nat.zero_le k) hk⟩
    · exact absurd (Option.some_inj.mp h) (by simp)
  · intro a h
    rw [hbase] at h
    rcases hloop : samplesLoop m n 0 with j1 | l <;> rw [hloop] at h
    · exact absurd (Option.some_inj.mp h) (by simp)
    · rcases Option.some_inj.mp h
      rcases samplesLoop_ok_spec m n 0 l hloop with ⟨h1, h2⟩
      exact ⟨by rw [h1]; simp, rfl, h2⟩
  · intro ⟨i, hin, hclip⟩
    rw [hbase]
    rcases hloop : samplesLoop m n 0 with j1 | l
    · exact ⟨j1, rfl⟩
    · rcases samplesLoop_ok_spec m n 0 l hloop with ⟨h1, h2⟩
      have hmem : m i ∈ l := by
        rw [h1]
        exact List.mem_map.mpr ⟨i, List.mem_range.mpr hin, by simp⟩
      exact absurd (h2 (m i) hmem) (not_le.mpr hclip)

/-- Witness for C6 (amended): the constant module at 2 clips at index 0; a
half-scale module succeeds with all samples within `[-1, 1]`. -/
theorem samples_from_module_clipping_spec_witness :
    Audio.samplesFromModule (fun _ => (2 : ℚ)) 44100 3 = some (.error 0) ∧
    (0 < 3 ∧ 1 < |(2 : ℚ)| ∧ ∀ k, k < 0 → |(2 : ℚ)| ≤ 1) := by
  refine ⟨by rfl, ?_⟩
  exact (samples_from_module_clipping_spec (fun _ => (2 : ℚ)) 44100 3 (by decide)).1 0
    (by rfl)

/-- Counterexample for C6 as stated: the datapoint `clippingParameters`
renders (through `DataPoint::new` of src/data.rs, under module behaviours
that always output the in-contract value 1) to the buffer `[2]`, whose only
sample exceeds 1 in absolute value, yet `DataPoint::new` returns `Ok` — no
`Clipping` error is raised on the datapoint rendering path. -/
theorem datapoint_render_performs_no_clipping_check :
    DataPoint.new trivialExternals constBehaviours clippingParameters =
      some (.ok ⟨⟨[2], 44100⟩, clippingParameters⟩) ∧ ¬(|(2 : ℚ)| ≤ 1) := by
  exact ⟨by rfl, by decide⟩

/-- C10.  `low_pass` returns an `Audio` with the same number of samples and
the same sample rate as its input, for every input and cutoff frequency,
whenever the external FFT transforms preserve buffer length (the contract of
`rustfft`'s in-place `process`).  The input `Audio` itself is taken by
shared reference in the source and the embedding is a pure function of it,
so the input is left unchanged. -/
theorem low_pass_preserves_length_and_rate
    (fftF ifftF : List (ℚ × ℚ) → List (ℚ × ℚ))
    (hf : ∀ l, (fftF l).length = l.length) (hi : ∀ l, (ifftF l).length = l.length)
    (a : Audio) (cutoffFreq : ℚ) :
    (lowPass fftF ifftF a cutoffFreq).samples.length = a.samples.length ∧
    (lowPass fftF ifftF a cutoffFreq).sampleRate = a.sampleRate := by
  constructor
  · unfold lowPass Audio.fromSpectrum Audio.fftWith
    simp [hi, hf]
  · rfl

/-- Witness for C10: the identity transforms preserve length on a concrete
two-sample buffer. -/
theorem low_pass_preserves_length_and_rate_witness :
    (lowPass id id ⟨[1, 2], 10⟩ 3).samples.length = (⟨[1, 2], 10⟩ : Audio).samples.length ∧
    (lowPass id id ⟨[1, 2], 10⟩ 3).sampleRate = (⟨[1, 2], 10⟩ : Audio).sampleRate :=
  low_pass_preserves_length_and_rate id id (fun _ => rfl) (fun _ => rfl) ⟨[1, 2], 10⟩ 3

/-- C7.  For a `LogUniform` domain with `0 < min < max`: `unmap`
(`map_to_value`) is exactly
`exp((ln max - ln min) * (coord + 1) / 2 + ln min)`; `map_value`
(`value_to_map`) is its exact two-sided inverse, so the round trip
`value_to_map (map_to_value c) = c` is exact (in particular within the
1e-4 tolerance); and a degenerate domain (`min = max`) maps every
coordinate to that single value. -/
theorem log_uniform_unmap_map_roundtrip (d : LogUniform) (c : ℝ)
    (hmin : 0 < d.min) (hlt : d.min < d.max) :
    d.unmap c = Real.exp ((Real.log d.max - Real.log d.min) * (c + 1) / 2 +
      Real.log d.min) ∧
    d.mapValue (d.unmap c) = some c ∧
    (∀ m, d.mapValue (d.unmap c) = some m → |m - c| ≤ 1e-4) ∧
    (∀ v : ℝ, 0 < v → ∀ w, d.mapValue v = some w → d.unmap w = v) ∧
    (∀ (e : LogUniform) (c1 : ℝ), e.min = e.max → e.unmap c1 = (e.min : ℝ)) := by
  have hminR : (0 : ℝ) < (d.min : ℚ) := by exact_mod_cast hmin
  have hltR : ((d.min : ℚ) : ℝ) < ((d.max : ℚ) : ℝ) := by exact_mod_cast hlt
  have hne : ((d.min : ℚ) : ℝ) ≠ ((d.max : ℚ) : ℝ) := ne_of_lt hltR
  have hL : Real.log d.max - Real.log d.min ≠ 0 :=
    sub_ne_zero_of_ne (ne_of_gt (Real.log_lt_log hminR hltR))
  have hunmap : d.unmap c = Real.exp ((Real.log d.max - Real.log d.min) * (c + 1) / 2 +
      Real.log d.min) := by
    unfold LogUniform.unmap
    rw [if_neg hne]
  have hround : d.mapValue (d.unmap c) = some c := by
    rw [hunmap]
    unfold LogUniform.mapValue
    rw [if_neg hne, Real.log_exp]
    congr 1
    field_simp
    ring
  refine ⟨hunmap, hround, ?_, ?_, ?_⟩
  · intro m hm
    rw [hround] at hm
    rcases Option.some_inj.mp hm
    simp only [sub_self, abs_zero]
    norm_num
  · intro v hv w hw
    unfold LogUniform.mapValue at hw
    rw [if_neg hne] at hw
    rcases Option.some_inj.mp hw
    unfold LogUniform.unmap
    rw [if_neg hne]
    have : (Real.log d.max - Real.log d.min) *
        ((Real.log v - Real.log d.min) / (Real.log d.max - Real.log d.min) * 2 - 1 + 1)
          / 2 + Real.log d.min = Real.log v := by
      field_simp
    rw [this, Real.exp_log hv]
  · intro e c1 he
    unfold LogUniform.unmap
    rw [if_pos (by exact_mod_cast he)]

/-- Witness for C7: the domain `[1, 2]` at coordinate 0 round-trips
exactly. -/
theorem log_uniform_unmap_map_roundtrip_witness :
    (0 : ℚ) < (⟨1, 2⟩ : LogUniform).min ∧
    (⟨1, 2⟩ : LogUniform).min < (⟨1, 2⟩ : LogUniform).max ∧
    (⟨1, 2⟩ : LogUniform).mapValue ((⟨1, 2⟩ : LogUniform).unmap 0) = some 0 :=
  ⟨by decide, by decide,
    (log_uniform_unmap_map_roundtrip ⟨1, 2⟩ 0 (by decide) (by decide)).2.1⟩

/-- C9 (amended).  Rendering a noise oscillator never applies the frequency
random walk: the noise arm of `OscillatorParameters::write` builds a module
with no `RandomWalk` node (as does the historical
`OscillatorParameters::create_oscillator` in src/lib.rs).  In
`create_oscillator` the noise module is additionally wrapped in
`Clamp(-1, 1)`, so every sample it contributes (before amplitude scaling)
lies in `[-1, 1]` for every possible noise-source behaviour; the `write`
path of src/parameters/oscillators.rs uses the noise module unclamped. -/
theorem noise_bypasses_walk_and_clamping :
    (∀ (B : OscillatorBehaviours) (amp freq std : ℚ) (walkSeed noiseSeed rate : ℕ),
      (OscillatorParameters.writeModule B ⟨.noise noiseSeed, amp⟩ freq std walkSeed
        rate).containsRandomWalk = false) ∧
    (∀ (amp freq : ℚ) (noiseSeed rate : ℕ),
      (OscillatorParameters.createOscillator ⟨.noise noiseSeed, amp⟩ freq
        rate).containsRandomWalk = false) ∧
    (∀ (B : OscillatorBehaviours) (amp freq : ℚ) (noiseSeed rate t : ℕ),
      |(OscillatorParameters.createOscillator ⟨.noise noiseSeed, amp⟩ freq rate).next
        B t| ≤ 1) := by
  refine ⟨fun _ _ _ _ _ _ _ => rfl, fun _ _ _ _ => rfl, ?_⟩
  intro B amp freq noiseSeed rate t
  show |max (-1) (min 1 (B.noiseNext noiseSeed t))| ≤ 1
  rw [abs_le]
  exact ⟨le_max_left _ _, max_le (by norm_num) (min_le_left _ _)⟩

/-- Counterexample for C9 as stated: under a noise behaviour that outputs 2
(no contract bounds a raw `NoiseOscillator`), the noise arm of
`OscillatorParameters::write` contributes the unclamped value 2 to the
buffer — the claimed clamping to `[-1, 1]` does not happen on this path. -/
theorem noise_write_is_unclamped :
    (OscillatorParameters.writeModule loudNoiseBehaviours ⟨.noise 0, 1⟩ 400 0 0
      44100).next loudNoiseBehaviours 0 = 2 ∧
    OscillatorParameters.write loudNoiseBehaviours ⟨.noise 0, 1⟩ 400 0 0 44100 [0] =
      [2] ∧
    ¬(|(2 : ℚ)| ≤ 1) :=
  ⟨by rfl, by decide, by decide⟩

/-- `searchFrom` finds the first index satisfying the predicate: the result
satisfies it and every earlier index in the scanned range fails it. -/
theorem searchFrom_spec (q : ℤ → Bool) :
    ∀ (n : ℕ) (i j : ℤ), searchFrom q n i = some j →
      q j = true ∧ i ≤ j ∧ ∀ k : ℤ, i ≤ k → k < j → q k = false := by
  intro n
  induction n with
  | zero => intro i j h; exact absurd h (by simp [searchFrom])
  | succ n ih =>
    intro i j h
    unfold searchFrom at h
    split at h
    · rename_i hq
      rcases Option.some_inj.mp h
      exact ⟨hq, le_refl i, fun k hk1 hk2 => absurd (lt_of_le_of_lt hk1 hk2) (lt_irrefl i)⟩
    · rename_i hq
      rcases ih (i + 1) j h with ⟨h1, h2, h3⟩
      refine ⟨h1, by omega, ?_⟩
      intro k hk1 hk2
      rcases eq_or_lt_of_le hk1 with hk | hk
      · rcases hk; exact Bool.not_eq_true _ ▸ eq_false_of_ne_true hq
      · exact h3 k (by omega) hk2

/-- Invariants of the octave-adding loop: element-wise properties seeded by
the initial octave list and closed under fresh draws are preserved, the list
stays duplicate-free, and the head is never displaced. -/
theorem addOctaves_spec (E : Externals) (prob : ℚ) (num : ℕ) (hnum : 0 < num)
    (P : ℤ → Prop) (hP : ∀ k : ℕ, k < num → P (k : ℤ)) :
    ∀ (fuel : ℕ) (acc : List ℤ) (r : Rng) (res : List ℤ) (r2 : Rng),
      addOctaves E prob num fuel acc r = some (res, r2) →
      ((∀ o ∈ acc, P o) → ∀ o ∈ res, P o) ∧ (acc.Nodup → res.Nodup) ∧
      (∀ (a : ℤ) (t : List ℤ), acc = a :: t → ∃ t2, res = a :: t2) := by
  intro fuel
  induction fuel with
  | zero => intro acc r res r2 h; exact absurd h (by simp [addOctaves])
  | succ n ih =>
    intro acc r res r2 h
    unfold addOctaves at h
    simp only [Rng.genBool, Rng.genRange] at h
    split at h
    · set o : ℤ := ((E.rngNat r.seed (r.pos + 1) % num : ℕ) : ℤ) with ho
      have holt : E.rngNat r.seed (r.pos + 1) % num < num := Nat.mod_lt _ hnum
      rcases ih _ _ _ _ h with ⟨hPres, hNodup, hHead⟩
      refine ⟨?_, ?_, ?_⟩
      · intro hacc
        refine hPres ?_
        intro x hx
        by_cases hmem : o ∈ acc
        · rw [if_pos hmem] at hx; exact hacc x hx
        · rw [if_neg hmem] at hx
          rcases List.mem_append.mp hx with hx1 | hx2
          · exact hacc x hx1
          · rcases List.mem_singleton.mp hx2
            exact hP _ holt
      · intro hacc
        refine hNodup ?_
        by_cases hmem : o ∈ acc
        · rw [if_pos hmem]; exact hacc
        · rw [if_neg hmem]
          exact List.nodup_append.mpr ⟨hacc, List.nodup_singleton _,
            fun x hx1 hx2 => hmem (List.mem_singleton.mp hx2 ▸ hx1)⟩
      · intro a t hat
        by_cases hmem : o ∈ acc
        · exact hHead a t (by rw [if_pos hmem]; exact hat)
        · exact hHead a (t ++ [o]) (by rw [if_neg hmem, hat, List.cons_append])
    · rcases Prod.mk.injEq .. ▸ Option.some_inj.mp h with ⟨hres, _⟩
      rcases hres
      exact ⟨fun hacc => hacc, fun hacc => hacc, fun a t hat => ⟨t, hat⟩⟩

/-- Dissection of `generate_frequencies`: the produced octave list is
duplicate-free, starts with `given_octave` (root) or a drawn octave in
`[0, num_octaves)` (non-root), every member is either `given_octave` (root
only) or lies in `[0, num_octaves)`, and the emitted frequencies are the
octave list mapped through `lowest_octave * 2^octave`. -/
theorem generateOctaves_spec (E : Externals) (fuel : ℕ) (p : OctaveParameters) (f : ℚ)
    (root : Bool) (r : Rng) (g : ℤ) (num : ℕ) (octs : List ℤ) (r2 : Rng)
    (h : p.generateOctaves E fuel f root r = some (g, num, octs, r2)) :
    p.givenOctave f = some g ∧
    (∃ nz : ℤ, p.numOctaves (f / 2 ^ g) = some nz ∧ num = nz.toNat ∧ 1 ≤ nz) ∧
    octs.Nodup ∧
    (root = true → ∃ t, octs = g :: t) ∧
    (root = false → ∃ o : ℕ, o < num ∧ ∃ t, octs = (o : ℤ) :: t) ∧
    (∀ o ∈ octs, (root = true ∧ o = g) ∨ (0 ≤ o ∧ o < (num : ℤ))) ∧
    p.generateFrequencies E fuel f root r =
      some (octs.map (fun o => f / 2 ^ g * 2 ^ o), r2) := by
  have hfreq : p.generateOctaves E fuel f root r = some (g, num, octs, r2) →
      p.generateFrequencies E fuel f root r =
        some (octs.map (fun o => f / 2 ^ g * 2 ^ o), r2) := by
    intro h1
    unfold OctaveParameters.generateFrequencies
    rw [h1]
    rfl
  rcases hg : p.givenOctave f with _ | g0
  · rw [OctaveParameters.generateOctaves, hg] at h
    exact absurd h (by simp)
  rcases hnz : p.numOctaves (f / 2 ^ g0) with _ | nz
  · rw [OctaveParameters.generateOctaves, hg] at h
    dsimp only at h
    rw [hnz] at h
    exact absurd h (by simp)
  have hnz1 : 1 ≤ nz := by
    rcases searchFrom_spec _ _ _ _ hnz with ⟨_, h2, _⟩
    exact h2
  have hnum0 : 0 < nz.toNat := by omega
  cases root with
  | true =>
    rw [OctaveParameters.generateOctaves, hg] at h
    dsimp only at h
    rw [hnz] at h
    simp only [eq_self_iff_true, if_true] at h
    rcases hadd : addOctaves E p.addRootOctaveProbability nz.toNat fuel [g0] r
      with _ | ⟨octaves, r3⟩ <;> rw [hadd] at h
    · exact absurd h (by simp)
    dsimp only at h
    rw [Option.some_inj, Prod.mk.injEq, Prod.mk.injEq, Prod.mk.injEq] at h
    obtain ⟨h1, h2, h3, h4⟩ := h
    subst h1; subst h2; subst h3; subst h4
    rcases addOctaves_spec E _ _ hnum0
        (fun o => (True ∧ o = g0) ∨ (0 ≤ o ∧ o < (nz.toNat : ℤ)))
        (fun k hk => Or.inr ⟨Int.natCast_nonneg k, by exact_mod_cast hk⟩)
        fuel [g0] r octaves r3 hadd with ⟨hPres, hNodup, hHead⟩
    refine ⟨rfl, ⟨nz, hnz, rfl, hnz1⟩, hNodup (List.nodup_singleton g0), ?_, ?_, ?_,
      hfreq ?_⟩
    · intro _
      rcases hHead g0 [] rfl with ⟨t, ht⟩
      exact ⟨t, ht⟩
    · intro hfalse; exact absurd hfalse (by simp)
    · intro o ho
      rcases hPres (fun x hx => Or.inl ⟨trivial, List.mem_singleton.mp hx⟩) o ho with
        h | h
      · exact Or.inl ⟨rfl, h.2⟩
      · exact Or.inr h
    · rw [OctaveParameters.generateOctaves, hg]
      dsimp only
      rw [hnz]
      simp only [eq_self_iff_true, if_true]
      rw [hadd]
  | false =>
    rw [OctaveParameters.generateOctaves, hg] at h
    dsimp only at h
    rw [hnz] at h
    simp only [Bool.false_eq_true, if_false] at h
    dsimp only [Rng.genRange] at h
    rcases hadd : addOctaves E p.addOtherOctaveProbability nz.toNat fuel
        [((E.rngNat r.seed r.pos % nz.toNat : ℕ) : ℤ)] ⟨r.seed, r.pos + 1⟩
      with _ | ⟨octaves, r3⟩ <;> rw [hadd] at h
    · exact absurd h (by simp)
    dsimp only at h
    rw [Option.some_inj, Prod.mk.injEq, Prod.mk.injEq, Prod.mk.injEq] at h
    obtain ⟨h1, h2, h3, h4⟩ := h
    subst h1; subst h2; subst h3; subst h4
    have hdraw : E.rngNat r.seed r.pos % nz.toNat < nz.toNat := Nat.mod_lt _ hnum0
    rcases addOctaves_spec E _ _ hnum0
        (fun o => (False ∧ o = g0) ∨ (0 ≤ o ∧ o < (nz.toNat : ℤ)))
        (fun k hk => Or.inr ⟨Int.natCast_nonneg k, by exact_mod_cast hk⟩)
        fuel _ _ octaves r3 hadd with ⟨hPres, hNodup, hHead⟩
    refine ⟨rfl, ⟨nz, hnz, rfl, hnz1⟩, hNodup (List.nodup_singleton _), ?_, ?_, ?_,
      hfreq ?_⟩
    · intro htrue; exact absurd htrue (by simp)
    · intro _
      rcases hHead _ [] rfl with ⟨t, ht⟩
      exact ⟨E.rngNat r.seed r.pos % nz.toNat, hdraw, t, ht⟩
    · intro o ho
      rcases hPres (fun x hx => Or.inr (by
          rcases List.mem_singleton.mp hx
          exact ⟨Int.natCast_nonneg _, by exact_mod_cast hdraw⟩)) o ho with h | h
      · exact absurd h.1 (by simp)
      · exact Or.inr h
    · rw [OctaveParameters.generateOctaves, hg]
      dsimp only
      rw [hnz]
      simp only [Bool.false_eq_true, if_false]
      dsimp only [Rng.genRange]
      rw [hadd]

/-- The `given_octave` search brackets the input frequency: provided the
frequency is at least `min_frequency / 2^10` (so the scan's left edge is not
already below the minimum), the located `lowest_octave = f / 2^given_octave`
lies in `[min_frequency, 2 * min_frequency)`. -/
theorem givenOctave_bounds (p : OctaveParameters) (f : ℚ) (g : ℤ)
    (h : p.givenOctave f = some g)
    (hf10 : p.minFrequency ≤ f * 2 ^ (10 : ℕ)) :
    p.minFrequency ≤ f / 2 ^ g ∧ f / 2 ^ g < 2 * p.minFrequency := by
  unfold OctaveParameters.givenOctave at h
  rcases Option.map_eq_some'.mp h with ⟨j, hj, hjg⟩
  rcases searchFrom_spec _ _ _ _ hj with ⟨h1, h2, h3⟩
  have hqj : f / 2 ^ j < p.minFrequency := of_decide_eq_true h1
  have hneg10 : p.minFrequency ≤ f / 2 ^ (-10 : ℤ) := by
    have : f / 2 ^ (-10 : ℤ) = f * 2 ^ (10 : ℕ) := by
      rw [zpow_neg, div_eq_mul_inv, inv_inv]
      norm_num
    rw [this]
    exact hf10
  have hjne : j ≠ -10 := by
    intro hj10
    rw [hj10] at hqj
    exact absurd hneg10 (not_le.mpr hqj)
  have hg10 : -10 ≤ j - 1 := by omega
  have hqg : ¬(f / 2 ^ (j - 1) < p.minFrequency) :=
    decide_eq_false_iff_not.mp (h3 (j - 1) hg10 (by omega))
  rcases hjg
  constructor
  · exact le_of_not_lt hqg
  · have h21 : (2 : ℚ) ^ (j - 1 + 1) = 2 ^ (j - 1) * 2 := zpow_add_one₀ two_ne_zero _
    have : f / 2 ^ (j - 1) / 2 < p.minFrequency := by
      rw [div_div, ← h21]
      simpa using hqj
    have := (div_lt_iff₀ (by norm_num : (0 : ℚ) < 2)).mp this
    linarith

/-- The `num_octaves` search is at least 1 and every octave index strictly
below it keeps the frequency within `max_frequency`. -/
theorem numOctaves_bounds (p : OctaveParameters) (lowest : ℚ) (nz : ℤ)
    (h : p.numOctaves lowest = some nz) :
    1 ≤ nz ∧ ∀ k : ℤ, 1 ≤ k → k < nz → lowest * 2 ^ k ≤ p.maxFrequency := by
  unfold OctaveParameters.numOctaves at h
  rcases searchFrom_spec _ _ _ _ h with ⟨_, h2, h3⟩
  refine ⟨h2, ?_⟩
  intro k hk1 hk2
  exact le_of_not_lt (decide_eq_false_iff_not.mp (h3 k hk1 hk2))

/-- C4 (amended).  For every `OctaveParameters` (satisfying the construction
invariants `0 < min_frequency` and `2 * min_frequency ≤ max_frequency`) and
every chord-note frequency `f` that itself lies within bounds — for a root
note `min_frequency ≤ f ≤ max_frequency`, for a non-root note
`min_frequency / 2^10 ≤ f` (stated as `min ≤ f * 2^10`) — every frequency
emitted by `generate_frequencies` lies within
`[min_frequency, max_frequency]`, and the emitted octave indices for one
note are pairwise distinct.  (As stated, with unrestricted input
frequencies, the bound fails: the root note emits its input frequency
unchanged; see the counterexample.) -/
theorem generate_frequencies_bounds_and_distinct (E : Externals) (fuel : ℕ)
    (p : OctaveParameters) (f : ℚ) (root : Bool) (r : Rng) (g : ℤ) (num : ℕ)
    (octs : List ℤ) (r2 : Rng)
    (hmin : 0 < p.minFrequency) (hmax : p.minFrequency * 2 ≤ p.maxFrequency)
    (hroot : root = true → p.minFrequency ≤ f ∧ f ≤ p.maxFrequency)
    (hother : root = false → p.minFrequency ≤ f * 2 ^ (10 : ℕ))
    (h : p.generateOctaves E fuel f root r = some (g, num, octs, r2)) :
    octs.Nodup ∧
    p.generateFrequencies E fuel f root r =
      some (octs.map (fun o => f / 2 ^ g * 2 ^ o), r2) ∧
    ∀ x ∈ octs.map (fun o => f / 2 ^ g * 2 ^ o),
      p.minFrequency ≤ x ∧ x ≤ p.maxFrequency := by
  rcases generateOctaves_spec E fuel p f root r g num octs r2 h with
    ⟨hg, ⟨nz, hnz, hnum, hnz1⟩, hnodup, _, _, hclass, hfreqs⟩
  have hf10 : p.minFrequency ≤ f * 2 ^ (10 : ℕ) := by
    cases root with
    | true =>
      have hf := (hroot rfl).1
      calc p.minFrequency ≤ f := hf
      _ = f * 1 := (mul_one f).symm
      _ ≤ f * 2 ^ (10 : ℕ) := by
        have hfpos : 0 < f := lt_of_lt_of_le hmin hf
        have : (1 : ℚ) ≤ 2 ^ (10 : ℕ) := by norm_num
        exact mul_le_mul_of_nonneg_left this (le_of_lt hfpos)
    | false => exact hother rfl
  rcases givenOctave_bounds p f g hg hf10 with ⟨hlowmin, hlow2⟩
  have hlowpos : 0 < f / 2 ^ g := lt_of_lt_of_le hmin hlowmin
  rcases numOctaves_bounds p (f / 2 ^ g) nz hnz with ⟨_, hup⟩
  refine ⟨hnodup, hfreqs, ?_⟩
  intro x hx
  rcases List.mem_map.mp hx with ⟨o, ho, hxo⟩
  rcases hxo
  rcases hclass o ho with ⟨hr, hog⟩ | ⟨ho0, holt⟩
  · rcases hog
    have hcancel : f / 2 ^ g * 2 ^ g = f :=
      div_mul_cancel₀ f (ne_of_gt (zpow_pos (by norm_num : (0 : ℚ) < 2) g))
    rw [hcancel]
    exact hroot hr
  · constructor
    · calc p.minFrequency ≤ f / 2 ^ g := hlowmin
      _ = f / 2 ^ g * 1 := (mul_one _).symm
      _ ≤ f / 2 ^ g * 2 ^ o :=
        mul_le_mul_of_nonneg_left (one_le_zpow₀ one_le_two ho0)
          (le_of_lt hlowpos)
    · rcases eq_or_lt_of_le ho0 with ho0e | ho0l
      · rw [← ho0e]
        calc f / 2 ^ g * 2 ^ (0 : ℤ) = f / 2 ^ g := by norm_num
        _ ≤ 2 * p.minFrequency := le_of_lt hlow2
        _ = p.minFrequency * 2 := mul_comm _ _
        _ ≤ p.maxFrequency := hmax
      · refine hup o (by omega) ?_
        rw [hnum] at holt
        omega

/-- Witness for C4 (amended): a root note at 150 Hz with octave bounds
`[100, 400]` emits exactly `[150]`, within bounds and duplicate-free. -/
theorem generate_frequencies_bounds_and_distinct_witness :
    OctaveParameters.generateOctaves trivialExternals 1 ⟨0, 0, 100, 400⟩ 150 true
      ⟨0, 0⟩ = some (0, 2, [0], ⟨0, 1⟩) ∧
    (([0] : List ℤ).Nodup ∧
      OctaveParameters.generateFrequencies trivialExternals 1 ⟨0, 0, 100, 400⟩ 150
        true ⟨0, 0⟩ =
        some (([0] : List ℤ).map (fun o => (150 : ℚ) / 2 ^ (0 : ℤ) * 2 ^ o), ⟨0, 1⟩) ∧
      ∀ x ∈ ([0] : List ℤ).map (fun o => (150 : ℚ) / 2 ^ (0 : ℤ) * 2 ^ o),
        (100 : ℚ) ≤ x ∧ x ≤ 400) := by
  refine ⟨by decide, ?_⟩
  exact generate_frequencies_bounds_and_distinct trivialExternals 1 ⟨0, 0, 100, 400⟩
    150 true ⟨0, 0⟩ 0 2 [0] ⟨0, 1⟩ (by norm_num) (by norm_num)
    (fun _ => ⟨by norm_num, by norm_num⟩) (fun hf => absurd hf (by simp)) (by decide)

/-- Counterexample for C4 as stated: with the validly constructed octave
bounds `[100, 400]` and input frequency 50 (outside the bounds), the root
path of `generate_frequencies` emits 50, which is below `min_frequency`. -/
theorem generate_frequencies_escapes_bounds :
    OctaveParameters.new 0 0 100 400 = some ⟨0, 0, 100, 400⟩ ∧
    OctaveParameters.generateFrequencies trivialExternals 1 ⟨0, 0, 100, 400⟩ 50 true
      ⟨0, 0⟩ = some ([50], ⟨0, 1⟩) ∧
    ¬((100 : ℚ) ≤ 50) := ⟨by decide, by decide, by norm_num⟩

/-- C5 (amended).  For the root note, `generate_frequencies` always emits
first (unconditionally) the note's own input frequency `f` — which equals
`lowest_octave * 2^given_octave`, not the base-octave copy `lowest_octave`
itself; for every non-root note, one octave copy with a drawn index in
`[0, num_octaves)` is emitted first instead. -/
theorem generate_frequencies_first_emission (E : Externals) (fuel : ℕ)
    (p : OctaveParameters) (f : ℚ) (root : Bool) (r : Rng) (g : ℤ) (num : ℕ)
    (octs : List ℤ) (r2 : Rng)
    (h : p.generateOctaves E fuel f root r = some (g, num, octs, r2)) :
    (root = true → (octs.map (fun o => f / 2 ^ g * 2 ^ o)).head? = some f) ∧
    (root = false → ∃ o : ℕ, o < num ∧
      (octs.map (fun o => f / 2 ^ g * 2 ^ o)).head? =
        some (f / 2 ^ g * 2 ^ (o : ℤ))) ∧
    p.generateFrequencies E fuel f root r =
      some (octs.map (fun o => f / 2 ^ g * 2 ^ o), r2) := by
  rcases generateOctaves_spec E fuel p f root r g num octs r2 h with
    ⟨_, _, _, hroot, hother, _, hfreqs⟩
  refine ⟨?_, ?_, hfreqs⟩
  · intro hr
    rcases hroot hr with ⟨t, ht⟩
    rw [ht]
    simp only [List.map_cons, List.head?_cons, Option.some_inj]
    exact div_mul_cancel₀ f (ne_of_gt (zpow_pos (by norm_num : (0 : ℚ) < 2) g))
  · intro hr
    rcases hother hr with ⟨o, ho, t, ht⟩
    exact ⟨o, ho, by rw [ht]; simp⟩

/-- Witness for C5 (amended): the root note at 200 Hz (whose base-octave
copy is 100 Hz) emits 200 first. -/
theorem generate_frequencies_first_emission_witness :
    OctaveParameters.generateOctaves trivialExternals 1 ⟨0, 0, 100, 400⟩ 200 true
      ⟨0, 0⟩ = some (1, 3, [1], ⟨0, 1⟩) ∧
    (([1] : List ℤ).map (fun o => (200 : ℚ) / 2 ^ (1 : ℤ) * 2 ^ o)).head? =
      some 200 := by
  refine ⟨by decide, ?_⟩
  exact (generate_frequencies_first_emission trivialExternals 1 ⟨0, 0, 100, 400⟩ 200
    true ⟨0, 0⟩ 1 3 [1] ⟨0, 1⟩ (by decide)).1 rfl

/-- Counterexample for C5 as stated: for the root note at 400 Hz with octave
bounds `[100, 400]`, the base octave locates the copy at 100 Hz
(`given_octave = 2`, `400 / 2^2 = 100`), yet `generate_frequencies` emits
400 — the input frequency, not the base-octave copy. -/
theorem root_emits_input_not_base_octave :
    OctaveParameters.givenOctave ⟨0, 0, 100, 400⟩ 400 = some 2 ∧
    OctaveParameters.generateFrequencies trivialExternals 1 ⟨0, 0, 100, 400⟩ 400 true
      ⟨0, 0⟩ = some ([400], ⟨0, 1⟩) ∧
    (400 : ℚ) / 2 ^ (2 : ℤ) = 100 ∧ (400 : ℚ) ≠ 100 :=
  ⟨by decide, by decide, by decide, by decide⟩

/-- C1.  Generation is deterministic and order-independent: the full
per-index pipeline (`DataParameters::generate` then `DataPoint::new`) is a
pure function of the template and the 64-bit index alone, so any two
invocation sequences that generate index `i` (modelled as mapping the
pipeline over arbitrary index lists) produce identical results at `i` —
bit-identical sample buffers and labels — with no state carried between
indices; and the per-index seed is exactly
`hash(i)` wrapping-added to the template's seed offset. -/
theorem generation_deterministic_and_order_independent (E : Externals)
    (B : OscillatorBehaviours) (fuelOsc fuelOct : ℕ) (p : DataParameters)
    (l1 l2 : List ℕ) (k1 k2 i : ℕ)
    (h1 : l1[k1]? = some i) (h2 : l2[k2]? = some i) :
    (l1.map (generateDataPoint E B fuelOsc fuelOct p))[k1]? =
      (l2.map (generateDataPoint E B fuelOsc fuelOct p))[k2]? ∧
    DataParameters.generate E fuelOsc fuelOct p i =
      (if p.oscillators.any OscillatorDistribution.hasFrequency then
        DataPointParameters.new E fuelOsc fuelOct p
          ((E.hash i + p.seedOffset) % 2 ^ 64)
      else none) := by
  constructor
  · rw [List.getElem?_map, List.getElem?_map, h1, h2]
  · rfl

/-- Witness for C1: index 3 generated alone and after index 7 yields the
same result on the concrete one-oscillator template. -/
theorem generation_deterministic_and_order_independent_witness :
    ([3].map (generateDataPoint witnessExternals constBehaviours 5 5
      witnessTemplate))[0]? =
      ([7, 3].map (generateDataPoint witnessExternals constBehaviours 5 5
        witnessTemplate))[1]? ∧
    DataParameters.generate witnessExternals 5 5 witnessTemplate 3 =
      (if witnessTemplate.oscillators.any OscillatorDistribution.hasFrequency then
        DataPointParameters.new witnessExternals 5 5 witnessTemplate
          ((witnessExternals.hash 3 + witnessTemplate.seedOffset) % 2 ^ 64)
      else none) :=
  generation_deterministic_and_order_independent witnessExternals constBehaviours 5 5
    witnessTemplate [3] [7, 3] 0 1 3 (by decide) (by decide)

end AudioSamples
